import Mathlib

/-!
# Verification of the godb query engine

A shallow embedding of the `internal/database` package of the godb
repository, together with theorems settling the frozen claims about its
specification.

Modelling conventions:

* Go's dynamically typed cell (`any`) becomes the inductive `Value`.
  Go stores `int64`, `float64`, `float32`, `string` and `bool` in rows;
  `DATE` values are stored as their re-formatted `string`.  Both float
  widths are modelled by exact rationals (IEEE-754 rounding of short
  decimal literals is immaterial to every claim settled here), but the
  two widths are kept as distinct constructors because Go's interface
  equality distinguishes `float32` from `float64`.
* Go maps (`Row`, `Database.Tables`) become association lists without
  duplicate keys; lookup takes the first binding, update replaces the
  first binding in place.  Map iteration order never matters to the
  claims (the only iteration is `maps.Copy`, whose result is
  order-insensitive for lookup).
* Fallible Go functions return `Except String α`; in-place mutation of
  the catalog is made explicit by returning the post-state next to the
  result, exactly where the Go code mutates through pointers.
* Disk snapshots (`saveToFileGob`) are I/O and are not modelled; every
  claim is about the in-memory catalog.
* `addRow`, `GetColumn`, `columnExists` and `sortRows` are called by the
  sources but their definitions are not part of the sources; they are
  modelled from the specification and marked as such.
-/

deriving instance DecidableEq for Except

namespace GoDB

/-! ## Characters and basic string helpers -/

/-- The single-quote character, written by code point to keep the file
free of quote literals. -/
def sqChar : Char := Char.ofNat 39

/-- The double-quote character. -/
def dqChar : Char := Char.ofNat 34

/-- Is this character one of the two quote characters of the cutset
passed to `strings.Trim(val, cutset)` in the sources? -/
def isQuoteChar (c : Char) : Bool := c == sqChar || c == dqChar

/-- `strings.Trim(s, cutset)` with the quote cutset: remove ALL leading
and trailing quote characters (either kind, in any mix). -/
def trimQuotesList (l : List Char) : List Char :=
  ((l.dropWhile isQuoteChar).reverse.dropWhile isQuoteChar).reverse

/-- String form of `trimQuotesList`. -/
def trimQuotes (s : String) : String := String.mk (trimQuotesList s.toList)

/-- `strings.TrimSpace`: remove leading and trailing whitespace.
(The core `String.trim` is implemented by byte-position recursion that
the kernel cannot reduce, so trimming is done on character lists.) -/
def trimStr (s : String) : String :=
  String.mk (((s.toList.dropWhile Char.isWhitespace).reverse.dropWhile
    Char.isWhitespace).reverse)

/-- Fields accumulator: split at whitespace, dropping empty tokens. -/
def fieldsAux : List Char → List Char → List String
  | [], acc => if acc.isEmpty then [] else [String.mk acc.reverse]
  | c :: rest, acc =>
    if c.isWhitespace then
      if acc.isEmpty then fieldsAux rest []
      else String.mk acc.reverse :: fieldsAux rest []
    else fieldsAux rest (c :: acc)

/-- `strings.Fields`: whitespace-separated tokens. -/
def fieldsOf (s : String) : List String := fieldsAux s.toList []

/-- Fuel-driven splitting on a non-empty separator; each step consumes
at least one character, so fuel `length + 1` never runs out. -/
def splitOnAuxF (sep : List Char) : Nat → List Char → List Char → List String
  | 0, l, acc => [String.mk (acc.reverse ++ l)]
  | _ + 1, [], acc => [String.mk acc.reverse]
  | fuel + 1, l@(c :: rest), acc =>
    if sep.isPrefixOf l then
      String.mk acc.reverse :: splitOnAuxF sep fuel (l.drop sep.length) []
    else splitOnAuxF sep fuel rest (c :: acc)

/-- `strings.Split(s, sep)` for the non-empty separators the engine
uses (`,`, `=`, `.`). -/
def splitOnStr (s sep : String) : List String :=
  if sep.toList.isEmpty then [s]
  else splitOnAuxF sep.toList (s.toList.length + 1) s.toList []

/-- Index of the first occurrence of `sep` inside `l`, if any. -/
def firstIdxOfSub (sep : List Char) : List Char → Option Nat
  | [] => if sep.isEmpty then some 0 else none
  | l@(_ :: t) =>
    if sep.isPrefixOf l then some 0
    else (firstIdxOfSub sep t).map (· + 1)

/-- `strings.SplitN(s, sep, 2)`: split at the first occurrence of `sep`,
returning the part before and the part after, or `none` when `sep` does
not occur. -/
def splitOnFirstStr (s sep : String) : Option (String × String) :=
  match firstIdxOfSub sep.toList s.toList with
  | none => none
  | some i =>
    some (String.mk (s.toList.take i),
          String.mk (s.toList.drop (i + sep.toList.length)))

/-- Boolean equality of rationals by components (rationals are stored
normalized, so this is exact equality). -/
def ratEqB (a b : ℚ) : Bool := a.num == b.num && a.den == b.den

/-- Boolean strict order on rationals (`Rat.blt` underlies `<`). -/
def ratLtB (a b : ℚ) : Bool := Rat.blt a b

/-- Byte-lexicographic strict order on character lists (Go string
comparison; identical to Lean's `String` order on these values). -/
def charListLt : List Char → List Char → Bool
  | _, [] => false
  | [], _ :: _ => true
  | a :: as, b :: bs =>
    if a.toNat < b.toNat then true
    else if b.toNat < a.toNat then false
    else charListLt as bs

/-- Boolean string order. -/
def strLtB (a b : String) : Bool := charListLt a.toList b.toList

/-- `strings.Contains(s, pat)`. -/
def strContains (s pat : String) : Bool :=
  (firstIdxOfSub pat.toList s.toList).isSome

/-- `strings.TrimPrefix(s, pat)`. -/
def trimPrefixStr (s pat : String) : String :=
  if pat.toList.isPrefixOf s.toList
  then String.mk (s.toList.drop pat.toList.length)
  else s

/-- ASCII upper-casing, as `strings.ToUpper` on the inputs that occur. -/
def toUpperStr (s : String) : String := String.mk (s.toList.map Char.toUpper)

/-- ASCII lower-casing. -/
def toLowerStr (s : String) : String := String.mk (s.toList.map Char.toLower)

/-! ## Numeric literal parsing -/

/-- Numeric value of a decimal digit list (most significant first). -/
def digitsToNat (l : List Char) : Nat :=
  l.foldl (fun a c => a * 10 + (c.toNat - 48)) 0

/-- Split off the longest leading run of decimal digits. -/
def takeDigits (l : List Char) : List Char × List Char :=
  (l.takeWhile Char.isDigit, l.dropWhile Char.isDigit)

/-- Parse an optional sign followed by at least one decimal digit;
returns the value and the unconsumed rest.  This is the integer scan
performed by `fmt.Sscanf(val, "%d", ...)`, which succeeds on any string
with an integer prefix. -/
def parseIntCore (l : List Char) : Option (Int × List Char) :=
  let (neg, rest) :=
    match l with
    | c :: t => if c == Char.ofNat 45 then (true, t)
                else if c == Char.ofNat 43 then (false, t)
                else (false, l)
    | [] => (false, l)
  let (ds, rest2) := takeDigits rest
  if ds.isEmpty then none
  else some ((if neg then -(digitsToNat ds : Int) else (digitsToNat ds : Int)), rest2)

/-- `fmt.Sscanf(val, "%d", &num)`: integer prefix scan. -/
def sscanfInt (s : String) : Option Int := (parseIntCore s.toList).map (·.1)

/-- `strconv.Atoi`: the whole string must be an integer. -/
def atoiFull (s : String) : Option Int :=
  match parseIntCore s.toList with
  | some (n, []) => some n
  | _ => none

/-- Parse a decimal float: optional sign, digits with optional fraction,
optional exponent; returns the exact rational value and the rest.  Used
for both the `%f` scan of `fmt.Sscanf` (prefix) and, with an
empty-remainder requirement, `strconv.ParseFloat` (whole string). -/
def parseFloatCore (l : List Char) : Option (ℚ × List Char) :=
  let (neg, rest) :=
    match l with
    | c :: t => if c == Char.ofNat 45 then (true, t)
                else if c == Char.ofNat 43 then (false, t)
                else (false, l)
    | [] => (false, l)
  let (ip, rest2) := takeDigits rest
  let (fp, rest3) :=
    match rest2 with
    | c :: t => if c == Char.ofNat 46 then takeDigits t else ([], rest2)
    | [] => ([], rest2)
  if ip.isEmpty && fp.isEmpty then none
  else
    let base : Int := (digitsToNat ip * 10 ^ fp.length + digitsToNat fp : Nat)
    let signed : Int := if neg then -base else base
    let (expo, rest4) :=
      match rest3 with
      | c :: t =>
        if c == Char.ofNat 101 || c == Char.ofNat 69 then
          match parseIntCore t with
          | some (e, r) => (some e, r)
          | none => (none, rest3)
        else (none, rest3)
      | [] => (none, rest3)
    let e10 : Int := (expo.getD 0) - fp.length
    let value : ℚ :=
      if 0 ≤ e10 then mkRat (signed * 10 ^ e10.toNat) 1
      else mkRat signed (10 ^ (-e10).toNat)
    some (value, rest4)

/-- `fmt.Sscanf(val, "%f", &num)`: float prefix scan. -/
def sscanfFloat (s : String) : Option ℚ := (parseFloatCore s.toList).map (·.1)

/-- `strconv.ParseFloat(s, 64)`: the whole string must be a float. -/
def parseFloatFull (s : String) : Option ℚ :=
  match parseFloatCore s.toList with
  | some (q, []) => some q
  | _ => none

/-- The boolean scan of `fmt.Sscanf(val, "%t", &b)` (Go `ParseBool`
on the token). -/
def parseBoolToken (s : String) : Option Bool :=
  if s = "1" || s = "t" || s = "T" || s = "true" || s = "TRUE" || s = "True"
  then some true
  else if s = "0" || s = "f" || s = "F" || s = "false" || s = "FALSE" || s = "False"
  then some false
  else none

/-! ## Date parsing (layout `2006-01-02`) -/

/-- Days of a month, with the Gregorian leap rule. -/
def daysInMonth (y m : Nat) : Nat :=
  if m = 2 then
    if y % 4 = 0 && (y % 100 ≠ 0 || y % 400 = 0) then 29 else 28
  else if m = 4 || m = 6 || m = 9 || m = 11 then 30
  else 31

/-- Parse a canonical `YYYY-MM-DD` date into its components.  The Go
`time.Parse` is slightly more lenient about padding; the canonical form
is the only one the claims exercise, and re-formatting a canonical date
is the identity. -/
def dateTriple (s : String) : Option (Nat × Nat × Nat) :=
  match s.toList with
  | [y1, y2, y3, y4, d1, m1, m2, d2, a1, a2] =>
    if [y1, y2, y3, y4, m1, m2, a1, a2].all Char.isDigit
        && d1 == Char.ofNat 45 && d2 == Char.ofNat 45 then
      let y := digitsToNat [y1, y2, y3, y4]
      let m := digitsToNat [m1, m2]
      let d := digitsToNat [a1, a2]
      if 1 ≤ m && m ≤ 12 && 1 ≤ d && d ≤ daysInMonth y m then some (y, m, d)
      else none
    else none
  | _ => none

/-- `time.Parse(layout, s)` then `Format(layout)`: on canonical input
the round trip is the identity. -/
def parseDateStr (s : String) : Option String :=
  (dateTriple s).map (fun _ => s)

/-! ## Values -/

/-- The dynamic cell value: what the Go code actually stores in a
`Row` (`int64`, `float64`, `float32`, `string`, `bool`).  Equality is
Go interface equality: constructor-strict. -/
inductive Value where
  | VInt : Int → Value
  | VF64 : ℚ → Value
  | VF32 : ℚ → Value
  | VStr : String → Value
  | VBool : Bool → Value
  deriving DecidableEq, Repr

open Value

/-- Decimal rendering of a rational whose denominator divides a power
of ten (any float parsed from a decimal literal); finds the least such
power. -/
def findPow10 (d : Nat) : Nat → Nat → Option Nat
  | 0, _ => none
  | fuel + 1, k => if d ∣ 10 ^ k then some k else findPow10 d fuel (k + 1)

/-- Left-pad a digit string with zeros to the given length. -/
def padZeros (l : List Char) (n : Nat) : List Char :=
  List.replicate (n - l.length) (Char.ofNat 48) ++ l

/-- Shortest plain decimal form of a rational (`fmt.Sprint` of a Go
float prints integral values without a decimal point and short decimals
exactly; the scientific-notation regime of Go's shortest formatting is
outside every value the claims touch). -/
def displayQ (q : ℚ) : String :=
  if q.den = 1 then toString q.num
  else
    match findPow10 q.den 400 0 with
    | none => toString q.num ++ String.mk [Char.ofNat 47] ++ toString q.den
    | some k =>
      let m : Nat := (q.num.natAbs * 10 ^ k) / q.den
      let ds := padZeros (toString m).toList (k + 1)
      let ip := ds.take (ds.length - k)
      let fp := ds.drop (ds.length - k)
      (if q.num < 0 then String.mk [Char.ofNat 45] else "")
        ++ String.mk ip ++ String.mk [Char.ofNat 46] ++ String.mk fp

/-- `fmt.Sprint` of a stored cell value. -/
def display : Value → String
  | VInt i => toString i
  | VF64 q => displayQ q
  | VF32 q => displayQ q
  | VStr s => s
  | VBool b => if b then "true" else "false"

/-! ## Rows -/

/-- A table row: Go `map[string]any`, modelled as an association list
without duplicate keys. -/
abbrev Row := List (String × Value)

/-- Map lookup `row[col]` (first binding). -/
def rowFind : Row → String → Option Value
  | [], _ => none
  | (k1, v1) :: rest, k => if k1 = k then some v1 else rowFind rest k

/-- Map update `row[col] = v`: replace the first binding or append. -/
def rowSet : Row → String → Value → Row
  | [], k, v => [(k, v)]
  | (k1, v1) :: rest, k, v =>
    if k1 = k then (k, v) :: rest else (k1, v1) :: rowSet rest k v

/-- `maps.Copy(dst, src)`: set every binding of `src` into `dst`. -/
def mapsCopy (dst src : Row) : Row :=
  src.foldl (fun d p => rowSet d p.1 p.2) dst

/-! ## Columns, tables, catalog -/

/-- A table column (`Column` in the sources); the type and the
constraints are the strings the Go code uses. -/
structure Column where
  name : String
  ctype : String
  constraints : List String := []
  refTable : String := ""
  refCol : String := ""
  deriving DecidableEq, Repr

/-- A table: ordered columns and rows in insertion order. -/
structure Table where
  name : String
  columns : List Column
  rows : List Row
  deriving DecidableEq, Repr

/-- The catalog (`Database`): named tables.  The Go map becomes an
association list; iteration order of the map is never observed by the
operations the claims are about. -/
structure Database where
  Name : String
  Tables : List (String × Table)
  deriving DecidableEq, Repr

/-- Association-list lookup underlying `db.Tables[name]`. -/
def dbFindTables : List (String × Table) → String → Option Table
  | [], _ => none
  | (n1, t1) :: rest, n => if n1 = n then some t1 else dbFindTables rest n

/-- `db.Tables[name]` lookup. -/
def dbFind (db : Database) (n : String) : Option Table :=
  dbFindTables db.Tables n

/-- Write a table back into the catalog (the Go code mutates the table
through a pointer held in the map). -/
def dbSetTables : List (String × Table) → String → Table → List (String × Table)
  | [], n, t => [(n, t)]
  | (n1, t1) :: rest, n, t =>
    if n1 = n then (n, t) :: rest else (n1, t1) :: dbSetTables rest n t

/-- Catalog after replacing table `n` by `t`. -/
def dbSet (db : Database) (n : String) (t : Table) : Database :=
  { db with Tables := dbSetTables db.Tables n t }

/-- `isValidColumnType` from the sources. -/
def isValidColumnType (t : String) : Bool :=
  t = "INT" || t = "VARCHAR" || t = "DOUBLE" || t = "FLOAT"
    || t = "BOOL" || t = "DATE" || t = "ENUM"

/-! ## Type conversion (`columnTypeConversion`) -/

/-- `columnTypeConversion` from the sources: convert a trimmed literal
to the declared column type; the default branch (unknown type, e.g. the
empty type found for an undeclared column) passes the literal through
unchanged. -/
def columnTypeConversion (colType : String) (val : String) : Except String Value :=
  if colType = "INT" then
    match sscanfInt val with
    | some n => .ok (VInt n)
    | none => .error s!"invalid integer value for column type {colType}"
  else if colType = "VARCHAR" then
    .ok (VStr (trimQuotes val))
  else if colType = "DOUBLE" then
    match sscanfFloat val with
    | some q => .ok (VF64 q)
    | none => .error s!"invalid double value for column type {colType}"
  else if colType = "FLOAT" then
    match sscanfFloat val with
    | some q => .ok (VF32 q)
    | none => .error s!"invalid float value for column type {colType}"
  else if colType = "BOOL" then
    match parseBoolToken val with
    | some b => .ok (VBool b)
    | none => .error s!"invalid boolean value for column type {colType}"
  else if colType = "DATE" then
    match parseDateStr (trimQuotes val) with
    | some d => .ok (VStr d)
    | none => .error s!"invalid date value for column type {colType}"
  else .ok (VStr val)

/-! ## WHERE evaluation -/

/-- `convertToNumbers`: the row value must already be numeric (any Go
int or float width); the literal must `ParseFloat` in full. -/
def convertToNumbers (rowVal : Value) (valStr : String) : Option (ℚ × ℚ) :=
  match rowVal with
  | VInt i => (parseFloatFull valStr).map (fun x => (mkRat i 1, x))
  | VF64 q => (parseFloatFull valStr).map (fun x => (q, x))
  | VF32 q => (parseFloatFull valStr).map (fun x => (q, x))
  | _ => none

/-- `compareValues`: numeric three-way comparison when both sides are
numbers, else three-way string comparison of the displayed row value
with the literal. -/
def compareValues (rowVal : Value) (valStr : String) : Int :=
  match convertToNumbers rowVal valStr with
  | some (a, b) => if ratEqB a b then 0 else if ratLtB a b then -1 else 1
  | none =>
    let r := display rowVal
    if r = valStr then 0 else if strLtB r valStr then -1 else 1

/-- The operator dispatch of `evaluateWhere` (its `switch`): note that
`=` and `!=` compare the DISPLAYED row value with the literal as
strings, while the four inequalities go through `compareValues`. -/
def applyOp (op : String) (rowVal : Value) (valStr : String) : Bool :=
  if op = "=" then display rowVal == valStr
  else if op = "!=" then display rowVal != valStr
  else if op = "<" then compareValues rowVal valStr < 0
  else if op = ">" then compareValues rowVal valStr > 0
  else if op = "<=" then compareValues rowVal valStr ≤ 0
  else if op = ">=" then compareValues rowVal valStr ≥ 0
  else if op = "LIKE" then strContains (display rowVal) valStr
  else false

/-- The operator list of `evaluateWhere`, searched in this order. -/
def opList : List String := ["<=", ">=", "!=", "=", "<", ">", "LIKE"]

/-- First operator (in list order, not text order) contained in the
clause. -/
def findOp (w : String) : Option String := opList.find? (fun op => strContains w op)

/-- `evaluateWhere row clause`: empty clause is true; otherwise split at
the first occurrence of the detected operator, strip quotes from the
literal, look the column up and dispatch. -/
def evaluateWhere (row : Row) (w : String) : Bool :=
  if w = "" then true
  else
    match findOp w with
    | none => false
    | some op =>
      match splitOnFirstStr w op with
      | none => false
      | some (l, r) =>
        let col := trimStr l
        let v := trimQuotes (trimStr r)
        match rowFind row col with
        | none => false
        | some rv => applyOp op rv v

/-! ## Column-type lookup in the executors -/

/-- The column-type search of `Insert`: a loop over the columns WITHOUT
`break`, so the LAST matching column wins; an undeclared column yields
the empty type. -/
def findColTypeInsert (cols : List Column) (c : String) : String :=
  cols.foldl (fun acc col => if col.name = c then col.ctype else acc) ""

/-- The column-type search of `Update`: a loop WITH `break`, so the
FIRST matching column wins. -/
def findColTypeUpdate (cols : List Column) (c : String) : String :=
  match cols.find? (fun col => col.name = c) with
  | some col => col.ctype
  | none => ""

/-! ## Table methods that are not part of the sources -/

/-- Modelled from the spec: the table's primary-key column, recorded
when a column carrying `PRIMARY KEY` is added (`add_column`, §4.3). -/
def primaryKeyOf (t : Table) : Option String :=
  (t.columns.find? (fun c => c.constraints.contains "PRIMARY KEY")).map (·.name)

/-- Modelled from the spec: `max(existing integer values in that
column, defaulting to 0)` used by the auto-increment fill (§4.3). -/
def maxIntIn (rows : List Row) (c : String) : Int :=
  rows.foldl
    (fun m r => match rowFind r c with
                | some (VInt i) => max m i
                | _ => m) 0

/-- Modelled from the spec: one step of the auto-increment fill — set
the column to `max + 1` when it carries `AUTO_INCREMENT` and the row
lacks it (§4.3 step 1). -/
def autoFillStep (t : Table) (r : Row) (col : Column) : Row :=
  if col.constraints.contains "AUTO_INCREMENT" && (rowFind r col.name).isNone
  then rowSet r col.name (VInt (maxIntIn t.rows col.name + 1))
  else r

/-- Modelled from the spec: the auto-increment fill of `add_row`
(§4.3 step 1) — every `AUTO_INCREMENT` column the row lacks is set to
`max(existing integer values, defaulting to 0) + 1`. -/
def autoFillCols (t : Table) (r : Row) : Row :=
  t.columns.foldl (autoFillStep t) r

/-- Modelled from the spec: `add_row` (§4.3) — auto-increment fill,
primary-key presence, primary-key uniqueness, unique-column checks, and
only then the append; a failed check leaves the table untouched. -/
def addRow (t : Table) (r0 : Row) : Except String Table :=
  let r := autoFillCols t r0
  let append : Except String Table := .ok { t with rows := t.rows ++ [r] }
  let uniqueCheck : Except String Table :=
    match t.columns.find?
      (fun col => col.constraints.contains "UNIQUE"
        && t.rows.any (fun row => rowFind row col.name == rowFind r col.name)) with
    | some col => .error s!"unique constraint violation on column {col.name}"
    | none => append
  match primaryKeyOf t with
  | none => uniqueCheck
  | some pk =>
    match rowFind r pk with
    | none => .error s!"primary key column {pk} not provided"
    | some v =>
      if t.rows.any (fun row => rowFind row pk == some v) then
        .error s!"primary key value {display v} already exists"
      else uniqueCheck

/-- Modelled from the spec: `column_exists` (§4.3). -/
def columnExists (t : Table) (c : String) : Bool :=
  t.columns.any (fun col => col.name = c)

/-- Modelled from the spec: `column(name) -> Column | NotFound`
(§4.3); the sources call it `GetColumn`. -/
def GetColumn (t : Table) (c : String) : Except String Column :=
  match t.columns.find? (fun col => col.name = c) with
  | some col => .ok col
  | none => .error s!"column {c} not found"

/-! ## Stable sort (`sortRows`), modelled from the spec §4.3 -/

/-- Modelled from the spec: the type-directed strict comparison of
`sort_rows` — numeric for INT/DOUBLE/FLOAT, byte-lexicographic for
VARCHAR, `false < true` for BOOL, chronological for DATE,
case-insensitive for ENUM; anything else is incomparable. -/
def typedLess (ty : String) (a b : Value) : Bool :=
  if ty = "INT" then
    match a, b with
    | VInt x, VInt y => x < y
    | _, _ => false
  else if ty = "DOUBLE" || ty = "FLOAT" then
    match a, b with
    | VF64 x, VF64 y => ratLtB x y
    | VF64 x, VF32 y => ratLtB x y
    | VF32 x, VF64 y => ratLtB x y
    | VF32 x, VF32 y => ratLtB x y
    | _, _ => false
  else if ty = "VARCHAR" then
    match a, b with
    | VStr x, VStr y => strLtB x y
    | _, _ => false
  else if ty = "BOOL" then
    match a, b with
    | VBool x, VBool y => !x && y
    | _, _ => false
  else if ty = "DATE" then
    match a, b with
    | VStr x, VStr y =>
      match dateTriple x, dateTriple y with
      | some (y1, m1, d1), some (y2, m2, d2) =>
        y1 < y2 || (y1 = y2 && (m1 < m2 || (m1 = m2 && d1 < d2)))
      | _, _ => false
    | _, _ => false
  else if ty = "ENUM" then
    match a, b with
    | VStr x, VStr y => strLtB (toLowerStr x) (toLowerStr y)
    | _, _ => false
  else false

/-- Modelled from the spec: row comparison for the sort column; a row
missing the column (or with the wrong type inside `typedLess`) is
incomparable, i.e. `false` in both directions (§4.3). -/
def rowLessBy (col : Column) (dir : String) (r1 r2 : Row) : Bool :=
  match rowFind r1 col.name, rowFind r2 col.name with
  | some a, some b =>
    if dir = "DESC" then typedLess col.ctype b a else typedLess col.ctype a b
  | _, _ => false

/-- Stable insertion: an element moves past a later element only when
that element is strictly less, so equal or incomparable rows keep their
original relative order. -/
def insertSorted (less : Row → Row → Bool) (x : Row) : List Row → List Row
  | [] => [x]
  | y :: ys => if less y x then y :: insertSorted less x ys else x :: y :: ys

/-- Modelled from the spec: `sort_rows` as a stable sort by the
type-directed comparator (§4.3). -/
def sortRows (rows : List Row) (col : Column) (dir : String) : List Row :=
  rows.foldr (insertSorted (rowLessBy col dir)) []

/-! ## INSERT -/

/-- One step of the row-building loop of `Insert`: trim the column and
the value, look up the declared type (last match, empty for undeclared
columns) and convert. -/
def insertPairStep (t : Table) (r : Row) (p : String × String) : Except String Row :=
  let c := trimStr p.1
  let v := trimStr p.2
  match columnTypeConversion (findColTypeInsert t.columns c) v with
  | .ok cv => .ok (rowSet r c cv)
  | .error e => .error e

/-- The row-building loop of `Insert` over the column/value pairs. -/
def buildRow (t : Table) (cols vals : List String) : Except String Row :=
  (cols.zip vals).foldlM (insertPairStep t) []

/-- The table-level insert: count check, row building, then `add_row`
with its constraint checks propagated.  (`Database.Insert` below calls
`addRow` exactly as the source does — discarding its result.) -/
def tableInsert (t : Table) (cols vals : List String) : Except String Table :=
  if cols.length ≠ vals.length then .error "column count does not match value count"
  else
    match buildRow t cols vals with
    | .error e => .error e
    | .ok r => addRow t r

/-- `Database.Insert`: the source calls `table.addRow(row)` as a bare
statement, so a constraint error from `addRow` is DISCARDED: the
statement still reports `1 row inserted`, and on a failed check the row
is simply never appended. -/
def Database.Insert (db : Database) (tn : String) (cols vals : List String) :
    Except String String × Database :=
  match dbFind db tn with
  | none => (.error s!"table {tn} does not exist", db)
  | some t =>
    if cols.length ≠ vals.length then
      (.error "column count does not match value count", db)
    else
      match buildRow t cols vals with
      | .error e => (.error e, db)
      | .ok r =>
        match addRow t r with
        | .ok t2 => (.ok "1 row inserted", dbSet db tn t2)
        | .error _ => (.ok "1 row inserted", dbSet db tn t)

/-- A sequence of inserts into one table in which every insert fully
succeeds (its `add_row` included); the formal reading of "k successful
INSERTs". -/
def insertSeqStrict (db : Database) (tn : String) :
    List (List String × List String) → Except String Database
  | [] => .ok db
  | (cs, vs) :: rest =>
    match dbFind db tn with
    | none => .error s!"table {tn} does not exist"
    | some t =>
      match tableInsert t cs vs with
      | .error e => .error e
      | .ok t2 => insertSeqStrict (dbSet db tn t2) tn rest

/-! ## DELETE -/

/-- `Database.Delete`: keep the rows failing the predicate (all rows
when the clause is empty) and report the number of KEPT rows. -/
def Database.Delete (db : Database) (tn w : String) :
    Except String String × Database :=
  match dbFind db tn with
  | none => (.error s!"table {tn} does not exist", db)
  | some t =>
    if t.rows.length = 0 then (.error s!"table {tn} is empty", db)
    else
      let results := t.rows.filter (fun r => w == "" || ! evaluateWhere r w)
      let k := results.length
      (.ok s!"{k} rows deleted", dbSet db tn { t with rows := results })

/-! ## UPDATE -/

/-- Replace the element at an index, as `table.Rows[i][col] = v` does. -/
def listModify (f : Row → Row) : Nat → List Row → List Row
  | _, [] => []
  | 0, r :: rest => f r :: rest
  | n + 1, r :: rest => r :: listModify f n rest

/-- The first pass of `Update`, walking the rows with their index. -/
def collectIndicesAux (w : String) : Nat → List Row → List Nat
  | _, [] => []
  | i, r :: rest =>
    if evaluateWhere r w then i :: collectIndicesAux w (i + 1) rest
    else collectIndicesAux w (i + 1) rest

/-- The first pass of `Update`: indices of the rows satisfying the
predicate. -/
def collectIndices (rows : List Row) (w : String) : List Nat :=
  collectIndicesAux w 0 rows

/-- Write the converted value into column `c` of every collected row. -/
def applyAt (rows : List Row) (idxs : List Nat) (c : String) (v : Value) : List Row :=
  idxs.foldl (fun rs i => listModify (fun r => rowSet r c v) i rs) rows

/-- The `SET`-clause loop of `Update`: each assignment is parsed,
type-checked, converted and APPLIED to the table before the next
assignment is examined, so an error in a later assignment leaves the
earlier ones already written (the partially mutated table is
returned alongside the error). -/
def applySets (idxs : List Nat) : List String → Table → Option String × Table
  | [], t => (none, t)
  | p :: ps, t =>
    match splitOnStr p "=" with
    | [l, r] =>
      let c := trimStr l
      let v := trimStr r
      let ty := findColTypeUpdate t.columns c
      if ! isValidColumnType ty then (some s!"invalid column type: {ty}", t)
      else
        match columnTypeConversion ty v with
        | .error e => (some e, t)
        | .ok cv => applySets idxs ps { t with rows := applyAt t.rows idxs c cv }
    | _ => (some s!"invalid set clause: {p}", t)

/-- `Database.Update`: collect the satisfying indices, then run the
assignment loop; the returned catalog reflects every assignment applied
before a failure, exactly as the in-place Go mutation does. -/
def Database.Update (db : Database) (tn set w : String) :
    Except String String × Database :=
  match dbFind db tn with
  | none => (.error s!"table {tn} does not exist", db)
  | some t =>
    if t.rows.length = 0 then (.error s!"table {tn} is empty", db)
    else
      let idxs := collectIndices t.rows w
      if idxs.length = 0 then (.error "no rows found", db)
      else
        match applySets idxs (splitOnStr set ",") t with
        | (some e, t1) => (.error e, dbSet db tn t1)
        | (none, t1) =>
          let k := idxs.length
          (.ok s!"{k} rows updated", dbSet db tn t1)

/-! ## SELECT -/

/-- `parseLimitClause`: `strconv.Atoi` on a non-empty clause (the
message abbreviates the `%v`-formatted `Atoi` error). -/
def parseLimitClause (lim : String) : Except String Int :=
  if lim = "" then .ok 0
  else
    match atoiFull lim with
    | some n => .ok n
    | none => .error "invalid limit clause: invalid syntax"

/-- The in-loop limit test: parse the clause (only when non-empty) and
report whether accumulation must stop. -/
def limReached (lim : String) (acc : List Row) : Except String Bool :=
  if lim = "" then .ok false
  else
    match parseLimitClause lim with
    | .error e => .error e
    | .ok n => .ok (0 < n && n ≤ (acc.length : Int))

/-- `parseOrderByClause`: first field is the column, optional second
field must be `ASC` or `DESC` (upper-cased). -/
def parseOrderByClause (s : String) : Except String (String × String) :=
  if s = "" then .error "empty order by clause"
  else
    match fieldsOf (trimStr s) with
    | [] => .error "invalid order by clause"
    | col :: rest =>
      match rest with
      | [] => .ok (col, "ASC")
      | d :: _ =>
        let u := toUpperStr d
        if u = "ASC" || u = "DESC" then .ok (col, u)
        else .error "invalid order by direction"

/-- `parseJoinClause`: `JOIN <table> ON <condition>`, split at the
first `ON`. -/
def parseJoinClause (j : String) : Except String (String × String) :=
  match splitOnFirstStr j "ON" with
  | none => .error "invalid join syntax"
  | some (l, r) =>
    let jt := trimStr (trimPrefixStr (trimStr l) "JOIN")
    if jt = "" then .error "missing join table name"
    else .ok (jt, trimStr r)

/-- `parseJoinCondition`: `t1.c1 = t2.c2`, returning the two column
names. -/
def parseJoinCondition (cond : String) : Except String (String × String) :=
  match splitOnStr cond "=" with
  | [l, r] =>
    match splitOnStr (trimStr l) (String.mk [Char.ofNat 46]) with
    | [_, lc] =>
      match splitOnStr (trimStr r) (String.mk [Char.ofNat 46]) with
      | [_, rc] => .ok (lc, rc)
      | _ => .error "invalid right side of join condition"
    | _ => .error "invalid left side of join condition"
  | _ => .error "invalid join condition"

/-- One step of the non-join projection: `*` copies the whole source
row, any other requested column must exist in it. -/
def projStep (r : Row) (acc : Row) (col : String) : Except String Row :=
  let c := trimStr col
  if c = "*" then .ok (mapsCopy acc r)
  else
    match rowFind r c with
    | some v => .ok (rowSet acc c v)
    | none => .error s!"column {c} not found"

/-- The projection of one source row in the non-join `Select` loop. -/
def projectRow (r : Row) (cols : List String) : Except String Row :=
  cols.foldlM (projStep r) []

/-- Specification-side helper: project every row of a list in order,
failing where the loop's projection fails.  Used to state what the
accumulation loop computes. -/
def projectAll (cols : List String) : List Row → Except String (List Row)
  | [] => .ok []
  | r :: rest =>
    match projectRow r cols with
    | .error e => .error e
    | .ok pr =>
      match projectAll cols rest with
      | .error e => .error e
      | .ok prs => .ok (pr :: prs)

/-- The accumulation loop of the non-join `Select`: filter, project,
test the limit (stopping BEFORE the append when it is reached), append. -/
def selLoop (w lim : String) (cols : List String) :
    List Row → List Row → Except String (List Row)
  | [], acc => .ok acc
  | r :: rest, acc =>
    if w == "" || evaluateWhere r w then
      match projectRow r cols with
      | .error e => .error e
      | .ok pr =>
        match limReached lim acc with
        | .error e => .error e
        | .ok true => .ok acc
        | .ok false => selLoop w lim cols rest (acc ++ [pr])
    else selLoop w lim cols rest acc

/-- One step of the join projection: unqualified names use the
combined row; a qualified `table.col` falls back to the originating
row only when the prefix names that table. -/
def projJoinStep (combined mainRow joinRow : Row) (tn jtn : String)
    (acc : Row) (col : String) : Except String Row :=
  let c := trimStr col
  if c = "*" then .ok (mapsCopy acc combined)
  else
    match rowFind combined c with
    | some v => .ok (rowSet acc c v)
    | none =>
      match splitOnStr c (String.mk [Char.ofNat 46]) with
      | [tp, cn] =>
        if tp = tn then
          match rowFind mainRow cn with
          | some v => .ok (rowSet acc c v)
          | none => .error s!"column {c} not found"
        else if tp = jtn then
          match rowFind joinRow cn with
          | some v => .ok (rowSet acc c v)
          | none => .error s!"column {c} not found"
        else .error s!"column {c} not found"
      | _ => .error s!"column {c} not found"

/-- Projection of a combined row in the join loop. -/
def projectJoinRow (combined mainRow joinRow : Row) (tn jtn : String)
    (cols : List String) : Except String Row :=
  cols.foldlM (projJoinStep combined mainRow joinRow tn jtn) []

/-- The inner loop of the join: for one main row, try every join-table
row; the returned flag records whether the limit `break outer` fired. -/
def joinInner (tn jtn lc rc w lim : String) (cols : List String) (mr : Row) :
    List Row → List Row → Except String (Bool × List Row)
  | [], acc => .ok (false, acc)
  | jr :: rest, acc =>
    if rowFind mr lc == rowFind jr rc then
      let combined := mapsCopy (mapsCopy [] mr) jr
      if w == "" || evaluateWhere combined w then
        match projectJoinRow combined mr jr tn jtn cols with
        | .error e => .error e
        | .ok pr =>
          match limReached lim acc with
          | .error e => .error e
          | .ok true => .ok (true, acc)
          | .ok false => joinInner tn jtn lc rc w lim cols mr rest (acc ++ [pr])
      else joinInner tn jtn lc rc w lim cols mr rest acc
    else joinInner tn jtn lc rc w lim cols mr rest acc

/-- The outer loop of the join over the main table's rows. -/
def joinOuter (tn jtn lc rc w lim : String) (cols : List String)
    (jrows : List Row) : List Row → List Row → Except String (List Row)
  | [], acc => .ok acc
  | mr :: rest, acc =>
    match joinInner tn jtn lc rc w lim cols mr jrows acc with
    | .error e => .error e
    | .ok (true, acc2) => .ok acc2
    | .ok (false, acc2) => joinOuter tn jtn lc rc w lim cols jrows rest acc2

/-- Result accumulation of `Select`: the plain loop when there is no
join clause, otherwise parse the join pieces and run the nested loop. -/
def accumulateRows (db : Database) (tn : String) (t : Table)
    (cols : List String) (w j lim : String) : Except String (List Row) :=
  if j = "" then selLoop w lim cols t.rows []
  else
    match parseJoinClause j with
    | .error e => .error s!"invalid join clause: {e}"
    | .ok (jtn, cond) =>
      match dbFind db jtn with
      | none => .error s!"join table {jtn} does not exist"
      | some jt =>
        match parseJoinCondition cond with
        | .error e => .error s!"invalid join condition: {e}"
        | .ok (lc, rc) => joinOuter tn jtn lc rc w lim cols jt.rows t.rows []

/-- `Database.Select`: accumulate, fail with `no results found` on an
empty result list, then order.  The success value is the final ordered
list of result rows (the Go code additionally JSON-encodes it, which
never fails on these values).  `Select` never mutates the catalog. -/
def Database.Select (db : Database) (tn : String) (cols : List String)
    (w j ob lim : String) : Except String (List Row) :=
  match dbFind db tn with
  | none => .error s!"table {tn} does not exist"
  | some t =>
    match accumulateRows db tn t cols w j lim with
    | .error e => .error e
    | .ok results =>
      if results.length = 0 then .error "no results found"
      else if ob ≠ "" then
        match parseOrderByClause ob with
        | .error e => .error e
        | .ok (oc, dir) =>
          if ! columnExists t oc then .error s!"column {oc} does not exist"
          else
            match GetColumn t oc with
            | .error e => .error e
            | .ok col => .ok (sortRows results col dir)
      else .ok results

/-! ## Example fixtures used by witnesses and counterexamples -/

/-- A table with a single INT column `a` holding one row `{a: 1}`. -/
def exTableA : Table :=
  Table.mk "users" [Column.mk "a" "INT" [] "" ""] [[("a", Value.VInt 1)]]

/-- A catalog holding `exTableA` under the name `users`. -/
def exDbA : Database := Database.mk "t" [("users", exTableA)]

/-- A table with a single INT column `a` holding rows `{a: 1}, {a: 2}`. -/
def exTableTwo : Table :=
  Table.mk "users" [Column.mk "a" "INT" [] "" ""]
    [[("a", Value.VInt 1)], [("a", Value.VInt 2)]]

/-- A catalog holding `exTableTwo` under the name `users`. -/
def exDbTwo : Database := Database.mk "t" [("users", exTableTwo)]

/-- A table with columns `a INT, b INT` and one all-zero row. -/
def exTableAB : Table :=
  Table.mk "users"
    [Column.mk "a" "INT" [] "" "", Column.mk "b" "INT" [] "" ""]
    [[("a", Value.VInt 0), ("b", Value.VInt 0)]]

/-- A catalog holding `exTableAB` under the name `users`. -/
def exDbAB : Database := Database.mk "t" [("users", exTableAB)]

/-- A table whose only column is `id INT PRIMARY KEY` with no rows. -/
def exTablePK : Table :=
  Table.mk "users" [Column.mk "id" "INT" ["PRIMARY KEY"] "" ""] []

/-- A catalog holding `exTablePK` under the name `users`. -/
def exDbPK : Database := Database.mk "t" [("users", exTablePK)]

/-- The auto-increment users table of the test-suite:
`id INT PRIMARY KEY AUTO_INCREMENT, name VARCHAR`, empty. -/
def exTableAI : Table :=
  Table.mk "users"
    [Column.mk "id" "INT" ["PRIMARY KEY", "AUTO_INCREMENT"] "" "",
     Column.mk "name" "VARCHAR" [] "" ""] []

/-- A catalog holding `exTableAI` under the name `users`. -/
def exDbAI : Database := Database.mk "testdb" [("users", exTableAI)]

/-- `exTableAI` after inserting the names Alice and Bob. -/
def exTableAIresult : Table :=
  { exTableAI with rows :=
      [[("name", Value.VStr "Alice"), ("id", Value.VInt 1)],
       [("name", Value.VStr "Bob"), ("id", Value.VInt 2)]] }

/-- `exDbAI` after the two inserts. -/
def exDbAIresult : Database := Database.mk "testdb" [("users", exTableAIresult)]

/-- A one-row main table for the join example; its row lacks key `a`. -/
def exTableJoinM : Table := Table.mk "m" [] [[("x", Value.VInt 1)]]

/-- A one-row join table; its row lacks key `b`. -/
def exTableJoinP : Table := Table.mk "p" [] [[("t", Value.VStr "H")]]

/-- A catalog with the two join-example tables. -/
def exDbJoin : Database :=
  Database.mk "t" [("m", exTableJoinM), ("p", exTableJoinP)]

/-! # Theorems -/

/-! ## Toolbox: rationals -/

theorem ratLtB_iff (a b : ℚ) : ratLtB a b = true ↔ a < b := Iff.rfl

theorem ratEqB_iff (a b : ℚ) : ratEqB a b = true ↔ a = b := by
  constructor
  · intro h
    rw [ratEqB, Bool.and_eq_true, beq_iff_eq, beq_iff_eq] at h
    exact Rat.ext h.1 h.2
  · rintro rfl
    simp [ratEqB]

/-! ## Toolbox: rows and the catalog -/

theorem rowFind_rowSet_same (r : Row) (k : String) (v : Value) :
    rowFind (rowSet r k v) k = some v := by
  induction r with
  | nil => simp [rowSet, rowFind]
  | cons p rest ih =>
    obtain ⟨k1, v1⟩ := p
    by_cases h : k1 = k
    · simp [rowSet, h, rowFind]
    · simp [rowSet, h, rowFind, ih]

theorem rowFind_rowSet_ne (r : Row) (k k2 : String) (v : Value) (h : k ≠ k2) :
    rowFind (rowSet r k v) k2 = rowFind r k2 := by
  induction r with
  | nil => simp [rowSet, rowFind, h]
  | cons p rest ih =>
    obtain ⟨k1, v1⟩ := p
    by_cases h1 : k1 = k
    · subst h1
      simp [rowSet, rowFind, h, if_neg (fun hh => h hh)]
    · simp [rowSet, h1, rowFind, ih]

theorem rowSet_rowSet_same (r : Row) (k : String) (v : Value) :
    rowSet (rowSet r k v) k v = rowSet r k v := by
  induction r with
  | nil => simp [rowSet]
  | cons p rest ih =>
    obtain ⟨k1, v1⟩ := p
    by_cases h : k1 = k
    · simp [rowSet, h]
    · simp [rowSet, h, ih]

theorem dbFindTables_dbSetTables_same (ts : List (String × Table)) (n : String) (t : Table) :
    dbFindTables (dbSetTables ts n t) n = some t := by
  induction ts with
  | nil => simp [dbSetTables, dbFindTables]
  | cons p rest ih =>
    obtain ⟨n1, t1⟩ := p
    by_cases h : n1 = n
    · simp [dbSetTables, h, dbFindTables]
    · simp [dbSetTables, h, dbFindTables, ih]

theorem dbFind_dbSet_same (db : Database) (n : String) (t : Table) :
    dbFind (dbSet db n t) n = some t := by
  simp [dbFind, dbSet, dbFindTables_dbSetTables_same]

/-! ## Toolbox: dropWhile / takeWhile characterizations -/

theorem head?_dropWhile_false (p : Char → Bool) (l : List Char) (x : Char)
    (h : (l.dropWhile p).head? = some x) : p x = false := by
  induction l with
  | nil => simp [List.dropWhile] at h
  | cons c rest ih =>
    by_cases hc : p c
    · exact ih (by simpa [List.dropWhile, hc] using h)
    · simp [List.dropWhile, hc] at h
      simpa [← h] using hc

theorem dropWhile_trim_decomp (l : List Char) :
    l.dropWhile isQuoteChar
      = trimQuotesList l
        ++ ((l.dropWhile isQuoteChar).reverse.takeWhile isQuoteChar).reverse := by
  rw [trimQuotesList]
  conv_lhs => rw [← List.reverse_reverse (List.dropWhile isQuoteChar l),
    ← List.takeWhile_append_dropWhile (p := isQuoteChar)
      (l := (List.dropWhile isQuoteChar l).reverse),
    List.reverse_append]

theorem trimQuotesList_spec (l : List Char) :
    ∃ p suf, l = p ++ trimQuotesList l ++ suf ∧
      (∀ ch ∈ p, isQuoteChar ch = true) ∧
      (∀ ch ∈ suf, isQuoteChar ch = true) ∧
      (∀ ch ∈ (trimQuotesList l).head?, isQuoteChar ch = false) ∧
      (∀ ch ∈ (trimQuotesList l).getLast?, isQuoteChar ch = false) := by
  refine ⟨l.takeWhile isQuoteChar,
    ((l.dropWhile isQuoteChar).reverse.takeWhile isQuoteChar).reverse, ?_, ?_, ?_, ?_, ?_⟩
  · conv_lhs => rw [← List.takeWhile_append_dropWhile (p := isQuoteChar) (l := l)]
    rw [List.append_assoc]
    congr 1
    exact dropWhile_trim_decomp l
  · intro ch hch
    exact List.mem_takeWhile_imp hch
  · intro ch hch
    rw [List.mem_reverse] at hch
    exact List.mem_takeWhile_imp hch
  · intro ch hch
    have hne : trimQuotesList l ≠ [] := by
      intro hnil
      rw [hnil] at hch
      simp at hch
    have hhead : (l.dropWhile isQuoteChar).head? = some ch := by
      rw [dropWhile_trim_decomp l, List.head?_append_of_ne_nil _ hne]
      exact Option.mem_def.mp hch
    exact head?_dropWhile_false _ _ _ hhead
  · intro ch hch
    rw [trimQuotesList, List.getLast?_reverse] at hch
    exact head?_dropWhile_false _ _ _ hch

/-! ## Claim C8 -/

/-- C8 counterexample: the claim says coercing the VARCHAR literal
`''a''` stores `'a'` (one matched pair of quotes removed); the code
removes ALL leading and trailing quotes and stores plain `a`. -/
theorem varchar_double_quote_counterexample :
    columnTypeConversion "VARCHAR"
        (String.mk [sqChar, sqChar, Char.ofNat 97, sqChar, sqChar])
      = .ok (Value.VStr (String.mk [Char.ofNat 97])) ∧
    String.mk [Char.ofNat 97] ≠ String.mk [sqChar, Char.ofNat 97, sqChar] := by
  decide

/-- C8 amended: coercing a literal to VARCHAR strips ALL leading and
trailing quote characters (single or double, in any mix) and preserves
every interior character: the input splits as quote-prefix ++ stored
text ++ quote-suffix, and the stored text neither begins nor ends with
a quote character. -/
theorem varchar_conversion_trims_all_quotes (v w : String)
    (h : columnTypeConversion "VARCHAR" v = .ok (Value.VStr w)) :
    ∃ p suf, v.toList = p ++ w.toList ++ suf ∧
      (∀ ch ∈ p, isQuoteChar ch = true) ∧
      (∀ ch ∈ suf, isQuoteChar ch = true) ∧
      (∀ ch ∈ w.toList.head?, isQuoteChar ch = false) ∧
      (∀ ch ∈ w.toList.getLast?, isQuoteChar ch = false) := by
  have hw : w = trimQuotes v := by
    rw [columnTypeConversion, if_neg (by decide : ¬ ("VARCHAR" : String) = "INT"),
      if_pos rfl] at h
    simp only [Except.ok.injEq, Value.VStr.injEq] at h
    exact h.symm
  subst hw
  have := trimQuotesList_spec v.toList
  simpa [trimQuotes] using this

/-- Witness for C8's amended theorem at the literal `'"a"'`. -/
theorem varchar_conversion_trims_all_quotes_witness :
    ∃ p suf,
      (String.mk [sqChar, dqChar, Char.ofNat 97, dqChar, sqChar]).toList
        = p ++ (String.mk [Char.ofNat 97]).toList ++ suf ∧
      (∀ ch ∈ p, isQuoteChar ch = true) ∧
      (∀ ch ∈ suf, isQuoteChar ch = true) ∧
      (∀ ch ∈ (String.mk [Char.ofNat 97]).toList.head?, isQuoteChar ch = false) ∧
      (∀ ch ∈ (String.mk [Char.ofNat 97]).toList.getLast?, isQuoteChar ch = false) :=
  varchar_conversion_trims_all_quotes
    (String.mk [sqChar, dqChar, Char.ofNat 97, dqChar, sqChar])
    (String.mk [Char.ofNat 97]) (by decide)

/-! ## Claim C3 -/

theorem compareValues_of_numeric (rv : Value) (vs : String) (x y : ℚ)
    (h : convertToNumbers rv vs = some (x, y)) :
    compareValues rv vs = if x = y then 0 else if x < y then -1 else 1 := by
  simp only [compareValues, h]
  by_cases hxy : x = y
  · rw [if_pos ((ratEqB_iff x y).mpr hxy), if_pos hxy]
  · rw [if_neg (fun hh => hxy ((ratEqB_iff x y).mp hh)), if_neg hxy]
    by_cases hlt : x < y
    · rw [if_pos ((ratLtB_iff x y).mpr hlt), if_pos hlt]
    · rw [if_neg (fun hh => hlt ((ratLtB_iff x y).mp hh)), if_neg hlt]

/-- C3 counterexample: both sides parse as the number 30, the claim
says `c = 30.0` must therefore hold for a stored Float 30.0, but the
code compares `=` as strings (`fmt.Sprint` of the float is `30`), so
the predicate is false. -/
theorem float_eq_where_counterexample :
    convertToNumbers (Value.VF64 30) "30.0" = some (30, 30) ∧
    evaluateWhere [("c", Value.VF64 30)] "c = 30.0" = false := by
  constructor
  · decide
  · decide

/-- C3 amended: only the four inequality operators compare numerically
when both sides parse as numbers; `=` and `!=` compare the DISPLAYED
stored value with the literal as strings, so a stored Float 30.0 does
not satisfy `c = 30.0` although it does satisfy `c = 30` and
`c <= 30.0`. -/
theorem evaluateWhere_operator_semantics :
    (∀ rv vs x y, convertToNumbers rv vs = some (x, y) →
      ((applyOp "<" rv vs = true ↔ x < y) ∧
       (applyOp ">" rv vs = true ↔ y < x) ∧
       (applyOp "<=" rv vs = true ↔ x ≤ y) ∧
       (applyOp ">=" rv vs = true ↔ y ≤ x))) ∧
    (∀ rv vs, applyOp "=" rv vs = (display rv == vs) ∧
      applyOp "!=" rv vs = (display rv != vs)) ∧
    evaluateWhere [("c", Value.VF64 30)] "c = 30" = true ∧
    evaluateWhere [("c", Value.VF64 30)] "c = 30.0" = false ∧
    evaluateWhere [("c", Value.VF64 30)] "c <= 30.0" = true := by
  refine ⟨?_, fun rv vs => ⟨rfl, rfl⟩, by decide, by decide, by decide⟩
  intro rv vs x y h
  have hc := compareValues_of_numeric rv vs x y h
  refine ⟨?_, ?_, ?_, ?_⟩
  · rw [show applyOp "<" rv vs = decide (compareValues rv vs < 0) from rfl, hc]
    by_cases h1 : x = y
    · simp [h1]
    · by_cases h2 : x < y
      · simp [h1, h2]
      · simp [h1, h2]
  · rw [show applyOp ">" rv vs = decide (compareValues rv vs > 0) from rfl, hc]
    by_cases h1 : x = y
    · simp [h1]
    · by_cases h2 : x < y
      · simp [h1, h2, not_lt_of_gt h2]
      · have hyx : y < x := lt_of_le_of_ne (not_lt.mp h2) (fun he => h1 he.symm)
        simp [h1, h2, hyx]
  · rw [show applyOp "<=" rv vs = decide (compareValues rv vs ≤ 0) from rfl, hc]
    by_cases h1 : x = y
    · simp [h1]
    · by_cases h2 : x < y
      · simp [h1, h2, le_of_lt h2]
      · have hyx : y < x := lt_of_le_of_ne (not_lt.mp h2) (fun he => h1 he.symm)
        simp [h1, h2, not_le.mpr hyx]
  · rw [show applyOp ">=" rv vs = decide (compareValues rv vs ≥ 0) from rfl, hc]
    by_cases h1 : x = y
    · simp [h1]
    · by_cases h2 : x < y
      · simp [h1, h2, not_le.mpr h2]
      · have hyx : y < x := lt_of_le_of_ne (not_lt.mp h2) (fun he => h1 he.symm)
        simp [h1, h2, le_of_lt hyx]

/-- Witness for C3's amended theorem: the numeric part at a stored
`Int 25` against the literal `30`. -/
theorem evaluateWhere_operator_semantics_witness :
    (applyOp "<" (Value.VInt 25) "30" = true ↔ (25 : ℚ) < 30) ∧
    (applyOp ">" (Value.VInt 25) "30" = true ↔ (30 : ℚ) < 25) ∧
    (applyOp "<=" (Value.VInt 25) "30" = true ↔ (25 : ℚ) ≤ 30) ∧
    (applyOp ">=" (Value.VInt 25) "30" = true ↔ (30 : ℚ) ≤ 25) :=
  evaluateWhere_operator_semantics.1 (Value.VInt 25) "30" 25 30 (by decide)

/-! ## Claim C2 -/

theorem filter_keep_of_where (w : String) (rows : List Row) :
    rows.filter (fun r => w == "" || ! evaluateWhere r w)
      = (if w = "" then rows else rows.filter (fun r => ! evaluateWhere r w)) := by
  by_cases hw : w = ""
  · subst hw
    simp
  · rw [if_neg hw]
    have hb : (w == "") = false := beq_eq_false_iff_ne.mpr hw
    simp only [hb, Bool.false_or]

/-- C2: `DELETE FROM t WHERE p` on an existing non-empty table keeps
exactly the rows failing the predicate (all rows when the clause is
empty) and reports `<k> rows deleted` where `k` is the number of rows
REMAINING after the delete. -/
theorem Delete_keeps_unsatisfying_rows (db : Database) (tn w : String) (t : Table)
    (htbl : dbFind db tn = some t) (hne : t.rows ≠ []) :
    ∃ (t2 : Table) (k : Nat),
      t2.rows = (if w = "" then t.rows
                 else t.rows.filter (fun r => ! evaluateWhere r w)) ∧
      t2.name = t.name ∧ t2.columns = t.columns ∧
      k = t2.rows.length ∧
      Database.Delete db tn w = (.ok s!"{k} rows deleted", dbSet db tn t2) := by
  have hlen : ¬ t.rows.length = 0 := fun h => hne (List.length_eq_zero.mp h)
  refine ⟨{ t with rows := t.rows.filter (fun r => w == "" || ! evaluateWhere r w) },
    (t.rows.filter (fun r => w == "" || ! evaluateWhere r w)).length,
    ?_, rfl, rfl, rfl, ?_⟩
  · exact filter_keep_of_where w t.rows
  · simp only [Database.Delete, htbl, if_neg hlen]

/-- Witness for C2 at a two-row table with the clause `a = 1`. -/
theorem Delete_keeps_unsatisfying_rows_witness :
    ∃ (t2 : Table) (k : Nat),
      t2.rows = (if "a = 1" = "" then exTableTwo.rows
                 else exTableTwo.rows.filter (fun r => ! evaluateWhere r "a = 1")) ∧
      t2.name = exTableTwo.name ∧ t2.columns = exTableTwo.columns ∧
      k = t2.rows.length ∧
      Database.Delete exDbTwo "users" "a = 1"
        = (.ok s!"{k} rows deleted", dbSet exDbTwo "users" t2) :=
  Delete_keeps_unsatisfying_rows exDbTwo "users" "a = 1" exTableTwo
    (by decide) (by decide)

/-! ## Claim C6 -/

/-- C6: the claim (and the spec's propagation policy) says a failed
statement leaves the catalog unchanged; but `UPDATE users SET
a = 1, b = x WHERE a = 0` on the row `{a: 0, b: 0}` returns a coercion
error for the second assignment AFTER the first assignment has already
been written in place: the error is returned AND the row has become
`{a: 1, b: 0}`. -/
theorem Update_error_leaves_partial_mutation :
    (Database.Update exDbAB "users" "a = 1, b = x" "a = 0").1
      = .error "invalid integer value for column type INT" ∧
    (dbFind (Database.Update exDbAB "users" "a = 1, b = x" "a = 0").2 "users").map
        (fun t => t.rows)
      = some [[("a", Value.VInt 1), ("b", Value.VInt 0)]] ∧
    (dbFind exDbAB "users").map (fun t => t.rows)
      = some [[("a", Value.VInt 0), ("b", Value.VInt 0)]] := by
  refine ⟨by decide, by decide, by decide⟩

/-! ## Toolbox: insertion machinery -/

theorem foldlM_except_cons {α : Type} (f : Row → α → Except String Row)
    (acc : Row) (p : α) (ps : List α) :
    List.foldlM f acc (p :: ps)
      = (match f acc p with
         | .ok a2 => List.foldlM f a2 ps
         | .error e => .error e) := by
  rw [List.foldlM_cons]
  cases f acc p <;> rfl

theorem insertPairStep_ok (t : Table) (acc : Row) (p : String × String) (acc2 : Row)
    (h : insertPairStep t acc p = .ok acc2) :
    ∃ cv, columnTypeConversion (findColTypeInsert t.columns (trimStr p.1))
        (trimStr p.2) = .ok cv ∧
      acc2 = rowSet acc (trimStr p.1) cv := by
  rw [insertPairStep] at h
  cases hcv : columnTypeConversion (findColTypeInsert t.columns (trimStr p.1)) (trimStr p.2) with
  | ok cv =>
    rw [hcv] at h
    simp only [Except.ok.injEq] at h
    exact ⟨cv, rfl, h.symm⟩
  | error e =>
    rw [hcv] at h
    simp at h

theorem foldlM_insert_preserves (t : Table) (k : String) :
    ∀ (ps : List (String × String)) (acc r : Row),
      List.foldlM (insertPairStep t) acc ps = .ok r →
      (∀ p ∈ ps, trimStr p.1 ≠ k) →
      rowFind r k = rowFind acc k := by
  intro ps
  induction ps with
  | nil =>
    intro acc r h _
    simp only [List.foldlM_nil, pure, Except.pure, Except.ok.injEq] at h
    rw [← h]
  | cons p ps ih =>
    intro acc r h hk
    rw [foldlM_except_cons] at h
    cases hstep : insertPairStep t acc p with
    | error e => rw [hstep] at h; simp at h
    | ok acc2 =>
      rw [hstep] at h
      obtain ⟨cv, _, hacc2⟩ := insertPairStep_ok t acc p acc2 hstep
      have := ih acc2 r h (fun q hq => hk q (List.mem_cons_of_mem p hq))
      rw [this, hacc2, rowFind_rowSet_ne _ _ _ _ (hk p (List.mem_cons_self p ps))]

theorem foldlM_insert_find (t : Table) :
    ∀ (ps : List (String × String)) (acc r : Row) (c v : String),
      List.foldlM (insertPairStep t) acc ps = .ok r →
      (c, v) ∈ ps →
      (ps.map (fun p => trimStr p.1)).Nodup →
      ∃ cv, columnTypeConversion (findColTypeInsert t.columns (trimStr c))
          (trimStr v) = .ok cv ∧
        rowFind r (trimStr c) = some cv := by
  intro ps
  induction ps with
  | nil => intro _ _ _ _ _ hmem _; simp at hmem
  | cons p ps ih =>
    intro acc r c v h hmem hnd
    rw [foldlM_except_cons] at h
    cases hstep : insertPairStep t acc p with
    | error e => rw [hstep] at h; simp at h
    | ok acc2 =>
      rw [hstep] at h
      obtain ⟨cv, hcv, hacc2⟩ := insertPairStep_ok t acc p acc2 hstep
      rw [List.map_cons, List.nodup_cons] at hnd
      rcases List.mem_cons.mp hmem with heq | hmem2
      · subst heq
        refine ⟨cv, hcv, ?_⟩
        have hrest : ∀ q ∈ ps, trimStr q.1 ≠ trimStr c := by
          intro q hq he
          exact hnd.1 (List.mem_map.mpr ⟨q, hq, he⟩)
        rw [foldlM_insert_preserves t (trimStr c) ps acc2 r h hrest, hacc2,
          rowFind_rowSet_same]
      · exact ih acc2 r c v h hmem2 hnd.2

theorem findColTypeInsert_unknown (colsL : List Column) (c : String)
    (h : ∀ col ∈ colsL, col.name ≠ c) : findColTypeInsert colsL c = "" := by
  have hgen : ∀ acc, colsL.foldl
      (fun acc col => if col.name = c then col.ctype else acc) acc = acc := by
    induction colsL with
    | nil => intro acc; rfl
    | cons col rest ih =>
      intro acc
      rw [List.foldl_cons, if_neg (h col (List.mem_cons_self col rest))]
      exact ih (fun q hq => h q (List.mem_cons_of_mem col hq)) acc
  exact hgen ""

theorem columnTypeConversion_unknown (val : String) :
    columnTypeConversion "" val = .ok (Value.VStr val) := rfl

theorem foldl_autoFill_preserves (t : Table) (k : String) :
    ∀ (colsL : List Column) (r : Row),
      (∀ col ∈ colsL, col.name ≠ k) →
      rowFind (colsL.foldl (autoFillStep t) r) k = rowFind r k := by
  intro colsL
  induction colsL with
  | nil => intro r _; rfl
  | cons col rest ih =>
    intro r h
    rw [List.foldl_cons]
    rw [ih (autoFillStep t r col) (fun q hq => h q (List.mem_cons_of_mem col hq))]
    rw [autoFillStep]
    split
    · exact rowFind_rowSet_ne _ _ _ _ (h col (List.mem_cons_self col rest))
    · rfl

theorem autoFill_preserves (t : Table) (r : Row) (k : String)
    (h : ∀ col ∈ t.columns, col.name ≠ k) :
    rowFind (autoFillCols t r) k = rowFind r k :=
  foldl_autoFill_preserves t k t.columns r h

theorem addRow_ok (t : Table) (r : Row) (t2 : Table) (h : addRow t r = .ok t2) :
    t2 = { t with rows := t.rows ++ [autoFillCols t r] } := by
  simp only [addRow] at h
  split at h
  · split at h
    · simp at h
    · exact (Except.ok.inj h).symm
  · split at h
    · simp at h
    · split at h
      · simp at h
      · split at h
        · simp at h
        · exact (Except.ok.inj h).symm

/-! ## Claim C9 -/

/-- C9 counterexample: inserting only the undeclared column `foo` into
a table whose schema is `id INT PRIMARY KEY` REPORTS success (the
source discards `addRow`'s result), but no row is appended, so the
literal is not stored anywhere — the claim promises it is stored. -/
theorem insert_unknown_column_counterexample :
    (Database.Insert exDbPK "users" ["foo"] ["bar"]).1 = .ok "1 row inserted" ∧
    (Database.Insert exDbPK "users" ["foo"] ["bar"]).2 = exDbPK ∧
    (dbFind exDbPK "users").map (fun t => t.rows) = some [] ∧
    addRow exTablePK [("foo", Value.VStr "bar")]
      = .error "primary key column id not provided" := by
  refine ⟨by decide, by decide, by decide, by decide⟩

/-- C9 amended: when the column/value counts match, every literal
coerces (an undeclared column always does) and the row passes
`add_row`'s constraint checks, the insert succeeds and each undeclared
listed column stores its trimmed literal unchanged as a string. -/
theorem Insert_unknown_column_stored_as_string (db : Database) (tn : String)
    (cols vals : List String) (t t2 : Table) (r : Row) (c v : String)
    (htbl : dbFind db tn = some t)
    (hlen : cols.length = vals.length)
    (hrow : buildRow t cols vals = .ok r)
    (hadd : addRow t r = .ok t2)
    (hmem : (c, v) ∈ cols.zip vals)
    (hunk : ∀ col ∈ t.columns, col.name ≠ trimStr c)
    (hnodup : ((cols.zip vals).map (fun p => trimStr p.1)).Nodup) :
    Database.Insert db tn cols vals = (.ok "1 row inserted", dbSet db tn t2) ∧
    ∃ rfull, t2.rows = t.rows ++ [rfull] ∧
      rowFind rfull (trimStr c) = some (Value.VStr (trimStr v)) := by
  constructor
  · simp only [Database.Insert, htbl, hlen, ne_eq, not_true_eq_false, reduceIte,
      hrow, hadd]
  · refine ⟨autoFillCols t r, by rw [addRow_ok t r t2 hadd], ?_⟩
    obtain ⟨cv, hcv, hfind⟩ := foldlM_insert_find t (cols.zip vals) [] r c v hrow hmem hnodup
    rw [findColTypeInsert_unknown t.columns (trimStr c) hunk,
      columnTypeConversion_unknown] at hcv
    rw [autoFill_preserves t r (trimStr c) hunk, hfind, ← Except.ok.inj hcv]

/-- Witness for C9's amended theorem: inserting the unknown column
`foo` with value `bar` into a one-column table without constraints. -/
theorem Insert_unknown_column_stored_as_string_witness :
    Database.Insert exDbA "users" ["foo"] ["bar"]
      = (.ok "1 row inserted",
         dbSet exDbA "users"
           { exTableA with
               rows := exTableA.rows ++ [[("foo", Value.VStr "bar")]] }) ∧
    ∃ rfull,
      ({ exTableA with
          rows := exTableA.rows ++ [[("foo", Value.VStr "bar")]] } : Table).rows
        = exTableA.rows ++ [rfull] ∧
      rowFind rfull (trimStr "foo") = some (Value.VStr (trimStr "bar")) :=
  Insert_unknown_column_stored_as_string exDbA "users" ["foo"] ["bar"]
    exTableA _ [("foo", Value.VStr "bar")] "foo" "bar"
    (by decide) (by decide) (by decide) (by decide) (by decide) (by decide)
    (by decide)

/-! ## Toolbox: auto-increment -/

theorem foldl_autoFill_noAI (t : Table) :
    ∀ (colsL : List Column) (r : Row),
      (∀ col ∈ colsL, col.constraints.contains "AUTO_INCREMENT" = false) →
      colsL.foldl (autoFillStep t) r = r := by
  intro colsL
  induction colsL with
  | nil => intro r _; rfl
  | cons col rest ih =>
    intro r h
    rw [List.foldl_cons, autoFillStep, h col (List.mem_cons_self col rest)]
    simp only [Bool.false_and, Bool.false_eq_true, reduceIte]
    exact ih r (fun q hq => h q (List.mem_cons_of_mem col hq))

theorem autoFill_single_AI (t : Table) (r : Row) (pre post : List Column)
    (idcol : Column)
    (hc : t.columns = pre ++ idcol :: post) (hname : idcol.name = "id")
    (hAI : idcol.constraints.contains "AUTO_INCREMENT" = true)
    (hpre : ∀ col ∈ pre, col.constraints.contains "AUTO_INCREMENT" = false)
    (hpost : ∀ col ∈ post, col.constraints.contains "AUTO_INCREMENT" = false)
    (hr : rowFind r "id" = none) :
    autoFillCols t r = rowSet r "id" (Value.VInt (maxIntIn t.rows "id" + 1)) := by
  rw [autoFillCols, hc, List.foldl_append, foldl_autoFill_noAI t pre r hpre,
    List.foldl_cons]
  have hstep : autoFillStep t r idcol
      = rowSet r "id" (Value.VInt (maxIntIn t.rows "id" + 1)) := by
    rw [autoFillStep, hname, hAI, hr]
    rfl
  rw [hstep]
  exact foldl_autoFill_noAI t post _ hpost

theorem maxIntIn_of_ids :
    ∀ (rows : List Row) (vs : List Int) (m : Int),
      rows.map (fun r => rowFind r "id") = vs.map (fun i => some (Value.VInt i)) →
      rows.foldl
        (fun m r => match rowFind r "id" with
                    | some (Value.VInt i) => max m i
                    | _ => m) m
        = vs.foldl max m := by
  intro rows
  induction rows with
  | nil =>
    intro vs m h
    have : vs = [] := by
      cases vs with
      | nil => rfl
      | cons a as => simp at h
    subst this
    rfl
  | cons r rest ih =>
    intro vs m h
    cases vs with
    | nil => simp at h
    | cons i is =>
      simp only [List.map_cons, List.cons.injEq] at h
      rw [List.foldl_cons, List.foldl_cons, h.1]
      exact ih is (max m i) h.2

theorem foldl_max_range_succ (n : Nat) :
    ((List.range n).map (fun i : Nat => (Int.ofNat i + 1))).foldl max 0
      = Int.ofNat n := by
  induction n with
  | zero => rfl
  | succ k ih =>
    rw [List.range_succ, List.map_append, List.foldl_append, ih]
    simp only [List.map_cons, List.map_nil, List.foldl_cons, List.foldl_nil]
    rw [max_eq_right]
    · rfl
    · omega

theorem maxIntIn_of_range (rows : List Row) (n : Nat)
    (h : rows.map (fun r => rowFind r "id")
      = (List.range n).map (fun i : Nat => some (Value.VInt (Int.ofNat i + 1)))) :
    maxIntIn rows "id" = Int.ofNat n := by
  rw [maxIntIn]
  have := maxIntIn_of_ids rows ((List.range n).map (fun i : Nat => (Int.ofNat i + 1))) 0
    (by rw [h, List.map_map]; rfl)
  rw [this, foldl_max_range_succ]

theorem tableInsert_ok (t : Table) (cs vs : List String) (t2 : Table)
    (h : tableInsert t cs vs = .ok t2) :
    ∃ r, buildRow t cs vs = .ok r ∧ addRow t r = .ok t2 := by
  rw [tableInsert] at h
  split at h
  · simp at h
  · cases hb : buildRow t cs vs with
    | error e => rw [hb] at h; simp at h
    | ok r => rw [hb] at h; exact ⟨r, rfl, h⟩

/-! ## Claim C5 -/

theorem insert_step_ids (t : Table) (cs vs : List String) (t2 : Table) (n : Nat)
    (pre post : List Column) (idcol : Column)
    (hc : t.columns = pre ++ idcol :: post) (hname : idcol.name = "id")
    (hAI : idcol.constraints.contains "AUTO_INCREMENT" = true)
    (hpre : ∀ col ∈ pre, col.constraints.contains "AUTO_INCREMENT" = false)
    (hpost : ∀ col ∈ post, col.constraints.contains "AUTO_INCREMENT" = false)
    (hids : t.rows.map (fun r => rowFind r "id")
      = (List.range n).map (fun i : Nat => some (Value.VInt (Int.ofNat i + 1))))
    (hnoid : ∀ p ∈ cs.zip vs, trimStr p.1 ≠ "id")
    (hins : tableInsert t cs vs = .ok t2) :
    t2.rows.map (fun r => rowFind r "id")
      = (List.range (n + 1)).map (fun i : Nat => some (Value.VInt (Int.ofNat i + 1))) ∧
    t2.columns = t.columns := by
  obtain ⟨r, hbuild, hadd⟩ := tableInsert_ok t cs vs t2 hins
  have hr : rowFind r "id" = none :=
    foldlM_insert_preserves t "id" (cs.zip vs) [] r hbuild hnoid
  have hfill := autoFill_single_AI t r pre post idcol hc hname hAI hpre hpost hr
  have ht2 := addRow_ok t r t2 hadd
  subst ht2
  refine ⟨?_, rfl⟩
  rw [List.map_append, hids, hfill, List.map_cons, List.map_nil,
    rowFind_rowSet_same, maxIntIn_of_range t.rows n hids,
    List.range_succ, List.map_append, List.map_cons, List.map_nil]

theorem insertSeq_ids :
    ∀ (pairs : List (List String × List String)) (db : Database) (tn : String)
      (t : Table) (n : Nat) (db2 : Database)
      (pre post : List Column) (idcol : Column),
      dbFind db tn = some t →
      t.columns = pre ++ idcol :: post → idcol.name = "id" →
      idcol.constraints.contains "AUTO_INCREMENT" = true →
      (∀ col ∈ pre, col.constraints.contains "AUTO_INCREMENT" = false) →
      (∀ col ∈ post, col.constraints.contains "AUTO_INCREMENT" = false) →
      t.rows.map (fun r => rowFind r "id")
        = (List.range n).map (fun i : Nat => some (Value.VInt (Int.ofNat i + 1))) →
      (∀ pr ∈ pairs, ∀ p ∈ pr.1.zip pr.2, trimStr p.1 ≠ "id") →
      insertSeqStrict db tn pairs = .ok db2 →
      ∀ t2, dbFind db2 tn = some t2 →
        t2.rows.map (fun r => rowFind r "id")
          = (List.range (n + pairs.length)).map
              (fun i : Nat => some (Value.VInt (Int.ofNat i + 1))) := by
  intro pairs
  induction pairs with
  | nil =>
    intro db tn t n db2 pre post idcol htbl _ _ _ _ _ hids _ hseq t2 ht2
    simp only [insertSeqStrict, Except.ok.injEq] at hseq
    subst hseq
    rw [htbl] at ht2
    cases ht2
    simpa using hids
  | cons pr rest ih =>
    intro db tn t n db2 pre post idcol htbl hc hname hAI hpre hpost hids hnoid hseq t2 ht2
    obtain ⟨cs, vs⟩ := pr
    simp only [insertSeqStrict, htbl] at hseq
    cases hins : tableInsert t cs vs with
    | error e => rw [hins] at hseq; simp at hseq
    | ok tmid =>
      rw [hins] at hseq
      obtain ⟨hmid, hmidcols⟩ := insert_step_ids t cs vs tmid n pre post idcol
        hc hname hAI hpre hpost hids
        (hnoid (cs, vs) (List.mem_cons_self _ rest)) hins
      have := ih (dbSet db tn tmid) tn tmid (n + 1) db2 pre post idcol
        (dbFind_dbSet_same db tn tmid) (hmidcols.trans hc) hname hAI hpre hpost
        hmid (fun q hq => hnoid q (List.mem_cons_of_mem _ hq)) hseq t2 ht2
      have harith : n + 1 + rest.length = n + ((cs, vs) :: rest).length := by
        simp only [List.length_cons]
        omega
      rw [← harith]
      exact this

/-- C5: starting from an empty table whose column `id` is the unique
`AUTO_INCREMENT` column (declared `INT PRIMARY KEY AUTO_INCREMENT`),
any sequence of k fully successful INSERTs that do not supply `id`
stores the id values `1, 2, ..., k` in insertion order — each insert
fills `id` with `max(existing integer values, default 0) + 1` before
the primary-key checks run. -/
theorem Insert_auto_increment_sequence (db : Database) (tn : String)
    (pairs : List (List String × List String)) (t : Table) (db2 : Database)
    (t2 : Table) (pre post : List Column) (idcol : Column)
    (htbl : dbFind db tn = some t)
    (hempty : t.rows = [])
    (hc : t.columns = pre ++ idcol :: post)
    (hname : idcol.name = "id")
    (hint : idcol.ctype = "INT")
    (hpk : idcol.constraints.contains "PRIMARY KEY" = true)
    (hAI : idcol.constraints.contains "AUTO_INCREMENT" = true)
    (hpre : ∀ col ∈ pre, col.constraints.contains "AUTO_INCREMENT" = false)
    (hpost : ∀ col ∈ post, col.constraints.contains "AUTO_INCREMENT" = false)
    (hnoid : ∀ pr ∈ pairs, ∀ p ∈ pr.1.zip pr.2, trimStr p.1 ≠ "id")
    (hseq : insertSeqStrict db tn pairs = .ok db2)
    (ht2 : dbFind db2 tn = some t2) :
    t2.rows.map (fun r => rowFind r "id")
      = (List.range pairs.length).map (fun i : Nat => some (Value.VInt (Int.ofNat i + 1))) := by
  have := insertSeq_ids pairs db tn t 0 db2 pre post idcol htbl hc hname hAI
    hpre hpost (by rw [hempty]; rfl) hnoid hseq t2 ht2
  simpa using this

/-- Witness for C5: two inserts of `name` values into the test-suite's
auto-increment table yield ids 1, 2. -/
theorem Insert_auto_increment_sequence_witness :
    (exDbAIresult.Tables.head?.map (fun p => p.2.rows.map (fun r => rowFind r "id")))
      = some [some (Value.VInt 1), some (Value.VInt 2)] ∧
    ((dbFind exDbAIresult "users").map
        (fun t => t.rows.map (fun r => rowFind r "id")))
      = some ((List.range 2).map (fun i : Nat => some (Value.VInt (Int.ofNat i + 1)))) := by
  constructor
  · decide
  · have := Insert_auto_increment_sequence exDbAI "users"
      [(["name"], ["Alice"]), (["name"], ["Bob"])] exTableAI exDbAIresult
      exTableAIresult []
      [Column.mk "name" "VARCHAR" [] "" ""]
      (Column.mk "id" "INT" ["PRIMARY KEY", "AUTO_INCREMENT"] "" "")
      (by decide) (by decide) (by decide) (by decide) (by decide) (by decide)
      (by decide) (by decide) (by decide) (by decide) (by decide) (by decide)
    rw [show dbFind exDbAIresult "users" = some exTableAIresult from by decide]
    exact congrArg some this

/-! ## Toolbox: indexed row updates -/

theorem listModify_get? (f : Row → Row) :
    ∀ (i : Nat) (rows : List Row) (j : Nat),
      (listModify f i rows)[j]? = if j = i then (rows[j]?).map f else rows[j]? := by
  intro i rows
  induction rows generalizing i with
  | nil =>
    intro j
    cases i <;> simp [listModify]
  | cons r rest ih =>
    intro j
    cases i with
    | zero =>
      cases j with
      | zero => simp [listModify]
      | succ j => simp [listModify]
    | succ i =>
      cases j with
      | zero => simp [listModify]
      | succ j =>
        simp only [listModify, List.getElem?_cons_succ, ih i j,
          Nat.succ_eq_add_one, Nat.add_right_cancel_iff]

theorem listModify_length (f : Row → Row) :
    ∀ (i : Nat) (rows : List Row), (listModify f i rows).length = rows.length := by
  intro i rows
  induction rows generalizing i with
  | nil => cases i <;> rfl
  | cons r rest ih =>
    cases i with
    | zero => simp [listModify]
    | succ i => simp [listModify, ih i]

theorem applyAt_length (rows : List Row) (idxs : List Nat) (c : String) (v : Value) :
    (applyAt rows idxs c v).length = rows.length := by
  rw [applyAt]
  induction idxs generalizing rows with
  | nil => rfl
  | cons i is ih =>
    rw [List.foldl_cons]
    rw [ih (listModify (fun r => rowSet r c v) i rows)]
    exact listModify_length _ i rows

theorem applyAt_get? (c : String) (v : Value) :
    ∀ (idxs : List Nat) (rows : List Row) (j : Nat),
      (applyAt rows idxs c v)[j]?
        = if j ∈ idxs then (rows[j]?).map (fun r => rowSet r c v)
          else rows[j]? := by
  intro idxs
  induction idxs with
  | nil => intro rows j; simp [applyAt]
  | cons i is ih =>
    intro rows j
    rw [applyAt, List.foldl_cons, ← applyAt, ih, listModify_get? _ i rows j]
    by_cases hji : j = i
    · subst hji
      by_cases hjs : j ∈ is
      · simp only [if_pos hjs, if_pos rfl, List.mem_cons, true_or, if_true]
        cases rows[j]? with
        | none => rfl
        | some r0 => simp [rowSet_rowSet_same]
      · simp only [if_neg hjs, if_pos rfl, List.mem_cons, true_or, if_true]
    · by_cases hjs : j ∈ is
      · simp only [if_pos hjs, if_neg hji, List.mem_cons, hjs, or_true, if_true]
      · simp only [if_neg hjs, if_neg hji, List.mem_cons,
          if_neg (not_or.mpr ⟨hji, hjs⟩)]

theorem collectIndicesAux_mem (w : String) :
    ∀ (rows : List Row) (n j : Nat),
      j ∈ collectIndicesAux w n rows
        ↔ ∃ k r0, j = n + k ∧ rows[k]? = some r0 ∧ evaluateWhere r0 w = true := by
  intro rows
  induction rows with
  | nil =>
    intro n j
    simp [collectIndicesAux]
  | cons r rest ih =>
    intro n j
    rw [collectIndicesAux]
    constructor
    · intro hmem
      split at hmem
      · rcases List.mem_cons.mp hmem with rfl | hmem2
        · exact ⟨0, r, by omega, by simp, by assumption⟩
        · obtain ⟨k, r0, hj, hk, he⟩ := (ih (n + 1) j).mp hmem2
          exact ⟨k + 1, r0, by omega, by simpa using hk, he⟩
      · obtain ⟨k, r0, hj, hk, he⟩ := (ih (n + 1) j).mp hmem
        exact ⟨k + 1, r0, by omega, by simpa using hk, he⟩
    · rintro ⟨k, r0, hj, hk, he⟩
      cases k with
      | zero =>
        simp only [List.getElem?_cons_zero, Option.some.injEq] at hk
        subst hk
        rw [if_pos he]
        exact List.mem_cons.mpr (Or.inl (by omega))
      | succ k =>
        simp only [List.getElem?_cons_succ] at hk
        have hmem2 : j ∈ collectIndicesAux w (n + 1) rest :=
          (ih (n + 1) j).mpr ⟨k, r0, by omega, hk, he⟩
        split
        · exact List.mem_cons.mpr (Or.inr hmem2)
        · exact hmem2

theorem collectIndices_mem (rows : List Row) (w : String) (j : Nat) :
    j ∈ collectIndices rows w
      ↔ ∃ r0, rows[j]? = some r0 ∧ evaluateWhere r0 w = true := by
  rw [collectIndices]
  constructor
  · intro h
    obtain ⟨k, r0, hj, hk, he⟩ := (collectIndicesAux_mem w rows 0 j).mp h
    have hkj : k = j := by omega
    subst hkj
    exact ⟨r0, hk, he⟩
  · rintro ⟨r0, hk, he⟩
    exact (collectIndicesAux_mem w rows 0 j).mpr ⟨j, r0, by omega, hk, he⟩

/-! ## Claim C1 -/

/-- C1: if `UPDATE tn SET c = v WHERE w` succeeds, then in the
post-state every row that satisfied the predicate has its `c` field set
to `coerce(type(c), v)` and every row that did not satisfy it is
byte-identical to its pre-state version (row count unchanged). -/
theorem Update_single_assignment (db : Database) (tn set w l r c v msg : String)
    (db2 : Database) (t : Table)
    (htbl : dbFind db tn = some t)
    (hcomma : splitOnStr set "," = [set])
    (hassign : splitOnStr set "=" = [l, r])
    (hc : trimStr l = c) (hv : trimStr r = v)
    (hupd : Database.Update db tn set w = (.ok msg, db2)) :
    ∃ cv t2,
      columnTypeConversion (findColTypeUpdate t.columns c) v = .ok cv ∧
      dbFind db2 tn = some t2 ∧
      t2.columns = t.columns ∧
      t2.rows.length = t.rows.length ∧
      (∀ (i : Nat) (r0 : Row), t.rows[i]? = some r0 →
        (evaluateWhere r0 w = true →
          t2.rows[i]? = some (rowSet r0 c cv) ∧
          rowFind (rowSet r0 c cv) c = some cv) ∧
        (evaluateWhere r0 w = false → t2.rows[i]? = some r0)) := by
  subst hc
  subst hv
  simp only [Database.Update, htbl] at hupd
  split at hupd
  · simp at hupd
  · split at hupd
    · simp at hupd
    · rw [hcomma] at hupd
      simp only [applySets, hassign] at hupd
      split at hupd
      · simp at hupd
      · rename_i t1 heq
        split at heq
        · simp at heq
        · split at heq
          · simp at heq
          · rename_i cv hconv
            simp only [Prod.mk.injEq, true_and] at heq
            subst heq
            simp only [Prod.mk.injEq, Except.ok.injEq] at hupd
            obtain ⟨_, hdb2⟩ := hupd
            refine ⟨cv,
              { t with rows := applyAt t.rows (collectIndices t.rows w) (trimStr l) cv },
              hconv, ?_, rfl, applyAt_length _ _ _ _, ?_⟩
            · rw [← hdb2]
              exact dbFind_dbSet_same db tn _
            · intro i r0 hi
              constructor
              · intro he
                have hmem : i ∈ collectIndices t.rows w :=
                  (collectIndices_mem t.rows w i).mpr ⟨r0, hi, he⟩
                constructor
                · show (applyAt t.rows (collectIndices t.rows w) (trimStr l) cv)[i]? = _
                  rw [applyAt_get?, if_pos hmem, hi]
                  rfl
                · exact rowFind_rowSet_same r0 (trimStr l) cv
              · intro he
                have hmem : i ∉ collectIndices t.rows w := by
                  intro hmem
                  obtain ⟨r1, hi1, he1⟩ := (collectIndices_mem t.rows w i).mp hmem
                  rw [hi] at hi1
                  cases hi1
                  rw [he] at he1
                  exact Bool.false_ne_true he1
                show (applyAt t.rows (collectIndices t.rows w) (trimStr l) cv)[i]? = _
                rw [applyAt_get?, if_neg hmem, hi]

/-- Witness for C1: `UPDATE users SET a = 5 WHERE a = 1` on the
two-row table. -/
theorem Update_single_assignment_witness :
    ∃ cv t2,
      columnTypeConversion
          (findColTypeUpdate exTableTwo.columns (trimStr "a ")) (trimStr " 5")
        = .ok cv ∧
      dbFind (dbSet exDbTwo "users"
          { exTableTwo with
              rows := [[("a", Value.VInt 5)], [("a", Value.VInt 2)]] }) "users"
        = some t2 ∧
      t2.columns = exTableTwo.columns ∧
      t2.rows.length = exTableTwo.rows.length ∧
      (∀ (i : Nat) (r0 : Row), exTableTwo.rows[i]? = some r0 →
        (evaluateWhere r0 "a = 1" = true →
          t2.rows[i]? = some (rowSet r0 (trimStr "a ") cv) ∧
          rowFind (rowSet r0 (trimStr "a ") cv) (trimStr "a ") = some cv) ∧
        (evaluateWhere r0 "a = 1" = false → t2.rows[i]? = some r0)) :=
  Update_single_assignment exDbTwo "users" "a = 5" "a = 1" "a " " 5"
    (trimStr "a ") (trimStr " 5") "1 rows updated"
    (dbSet exDbTwo "users"
      { exTableTwo with rows := [[("a", Value.VInt 5)], [("a", Value.VInt 2)]] })
    exTableTwo (by decide) (by decide) (by decide) rfl rfl (by decide)

/-! ## Toolbox: the join loop without WHERE, projection `*`, no limit -/

theorem projectJoinRow_star (combined mainRow joinRow : Row) (tn jtn : String) :
    projectJoinRow combined mainRow joinRow tn jtn ["*"]
      = .ok (mapsCopy [] combined) := rfl

theorem joinInner_no_limit (tn jtn lc rc : String) (mr : Row) :
    ∀ (jrows : List Row) (acc : List Row),
      joinInner tn jtn lc rc "" "" ["*"] mr jrows acc
        = .ok (false, acc ++ jrows.filterMap (fun jr =>
            if rowFind mr lc == rowFind jr rc
            then some (mapsCopy [] (mapsCopy (mapsCopy [] mr) jr))
            else none)) := by
  intro jrows
  induction jrows with
  | nil => intro acc; simp [joinInner]
  | cons jr rest ih =>
    intro acc
    rw [joinInner]
    by_cases hm : rowFind mr lc == rowFind jr rc
    · rw [if_pos hm]
      simp only [show (("" : String) == "") = true from rfl, Bool.true_or,
        if_pos rfl, projectJoinRow_star]
      rw [show limReached "" acc = .ok false from rfl]
      rw [ih (acc ++ [mapsCopy [] (mapsCopy (mapsCopy [] mr) jr)])]
      rw [List.filterMap_cons, if_pos hm]
      simp
    · rw [if_neg hm, ih acc, List.filterMap_cons, if_neg hm]

theorem joinOuter_no_limit (tn jtn lc rc : String) (jrows : List Row) :
    ∀ (mrows : List Row) (acc : List Row),
      joinOuter tn jtn lc rc "" "" ["*"] jrows mrows acc
        = .ok (acc ++ mrows.flatMap (fun mr => jrows.filterMap (fun jr =>
            if rowFind mr lc == rowFind jr rc
            then some (mapsCopy [] (mapsCopy (mapsCopy [] mr) jr))
            else none))) := by
  intro mrows
  induction mrows with
  | nil => intro acc; simp [joinOuter]
  | cons mr rest ih =>
    intro acc
    rw [joinOuter, joinInner_no_limit tn jtn lc rc mr jrows acc]
    refine Eq.trans (ih _) ?_
    simp [List.flatMap_cons, List.append_assoc]

/-! ## Claim C10 -/

/-- C10: in `SELECT * FROM tn JOIN jtn ON a = b` (no WHERE, no LIMIT),
a main-table row lacking key `a` and a join-table row lacking key `b`
are treated as matching (both lookups are Go `nil`), so their combined
row appears in the join output. -/
theorem Select_join_missing_keys_match (db : Database) (tn j jtn cond lc rc : String)
    (mt jt : Table) (mr jr : Row)
    (htbl : dbFind db tn = some mt)
    (hjp : parseJoinClause j = .ok (jtn, cond))
    (hjt : dbFind db jtn = some jt)
    (hjc : parseJoinCondition cond = .ok (lc, rc))
    (hmr : mr ∈ mt.rows) (hml : rowFind mr lc = none)
    (hjr : jr ∈ jt.rows) (hjrr : rowFind jr rc = none) :
    ∃ rs, Database.Select db tn ["*"] "" j "" "" = .ok rs ∧
      mapsCopy [] (mapsCopy (mapsCopy [] mr) jr) ∈ rs := by
  have hjne : j ≠ "" := by
    intro hj
    rw [hj, show parseJoinClause "" = .error "invalid join syntax" from by decide]
      at hjp
    cases hjp
  have hacc : accumulateRows db tn mt ["*"] "" j ""
      = .ok (mt.rows.flatMap (fun mr => jt.rows.filterMap (fun jr =>
          if rowFind mr lc == rowFind jr rc
          then some (mapsCopy [] (mapsCopy (mapsCopy [] mr) jr))
          else none))) := by
    rw [accumulateRows, if_neg hjne]
    simp only [hjp, hjt, hjc]
    rw [joinOuter_no_limit tn jtn lc rc jt.rows mt.rows []]
    simp
  have hmem : mapsCopy [] (mapsCopy (mapsCopy [] mr) jr)
      ∈ mt.rows.flatMap (fun mr => jt.rows.filterMap (fun jr =>
          if rowFind mr lc == rowFind jr rc
          then some (mapsCopy [] (mapsCopy (mapsCopy [] mr) jr))
          else none)) := by
    refine List.mem_flatMap.mpr ⟨mr, hmr, ?_⟩
    refine List.mem_filterMap.mpr ⟨jr, hjr, ?_⟩
    rw [hml, hjrr]
    rfl
  refine ⟨_, ?_, hmem⟩
  simp only [Database.Select, htbl, hacc]
  have hne : (mt.rows.flatMap (fun mr => jt.rows.filterMap (fun jr =>
      if rowFind mr lc == rowFind jr rc
      then some (mapsCopy [] (mapsCopy (mapsCopy [] mr) jr))
      else none))).length ≠ 0 := by
    intro h0
    rw [List.length_eq_zero.mp h0] at hmem
    simp at hmem
  rw [if_neg hne]
  rfl

/-- Witness for C10: a one-row main table without key `a` joined to a
one-row table without key `b`. -/
theorem Select_join_missing_keys_match_witness :
    ∃ rs, Database.Select exDbJoin "m" ["*"] "" "JOIN p ON m.a = p.b" "" ""
        = .ok rs ∧
      mapsCopy [] (mapsCopy (mapsCopy [] [("x", Value.VInt 1)])
        [("t", Value.VStr "H")]) ∈ rs :=
  Select_join_missing_keys_match exDbJoin "m" "JOIN p ON m.a = p.b" "p"
    "m.a = p.b" "a" "b" exTableJoinM exTableJoinP
    [("x", Value.VInt 1)] [("t", Value.VStr "H")]
    (by decide) (by decide) (by decide) (by decide) (by decide) (by decide)
    (by decide) (by decide)

/-! ## Toolbox: the limit test and the accumulation loops -/

theorem limReached_eval (lim : String) (acc : List Row) (N : Nat)
    (hne : lim ≠ "") (hlim : parseLimitClause lim = .ok (Int.ofNat N)) :
    limReached lim acc = .ok (decide (0 < N) && decide (N ≤ acc.length)) := by
  simp only [limReached, if_neg hne, hlim]
  have h1 : (0 < Int.ofNat N) ↔ (0 < N) := Int.ofNat_pos
  have h2 : (Int.ofNat N ≤ (acc.length : Int)) ↔ (N ≤ acc.length) := Int.ofNat_le
  rw [decide_eq_decide.mpr h1, decide_eq_decide.mpr h2]

theorem selLoop_limit_take (w lim : String) (cols : List String) (N : Nat)
    (hne : lim ≠ "") (hlim : parseLimitClause lim = .ok (Int.ofNat N)) (hN : 0 < N) :
    ∀ (rows acc prs : List Row),
      projectAll cols (rows.filter (fun r => w == "" || evaluateWhere r w)) = .ok prs →
      acc.length ≤ N →
      selLoop w lim cols rows acc = .ok (acc ++ prs.take (N - acc.length)) := by
  intro rows
  induction rows with
  | nil =>
    intro acc prs hm _
    simp only [List.filter_nil, projectAll, Except.ok.injEq] at hm
    subst hm
    simp [selLoop]
  | cons r rest ih =>
    intro acc prs hm hle
    rw [selLoop]
    by_cases hpass : (w == "" || evaluateWhere r w) = true
    · rw [if_pos hpass]
      rw [List.filter_cons, if_pos hpass] at hm
      cases hpr : projectRow r cols with
      | error e => rw [projectAll, hpr] at hm; simp at hm
      | ok pr =>
        rw [projectAll, hpr] at hm
        cases hrest : projectAll cols
            (rest.filter (fun r => w == "" || evaluateWhere r w)) with
        | error e => rw [hrest] at hm; simp at hm
        | ok prs2 =>
          rw [hrest] at hm
          simp only [Except.ok.injEq] at hm
          subst hm
          by_cases hfull : N ≤ acc.length
          · have hb : (decide (0 < N) && decide (N ≤ acc.length)) = true := by
              simp [hN, hfull]
            simp only [hpr, limReached_eval lim acc N hne hlim, hb]
            have hz : N - acc.length = 0 := by omega
            rw [hz]
            simp
          · have hb : (decide (0 < N) && decide (N ≤ acc.length)) = false := by
              simp [hfull]
            simp only [hpr, limReached_eval lim acc N hne hlim, hb]
            rw [ih (acc ++ [pr]) prs2 hrest (by simp; omega)]
            have hsub : N - acc.length = (N - (acc ++ [pr]).length) + 1 := by
              simp only [List.length_append, List.length_cons, List.length_nil]
              omega
            rw [hsub, List.take_succ_cons]
            simp
    · rw [if_neg hpass]
      rw [List.filter_cons, if_neg hpass] at hm
      exact ih acc prs hm hle

theorem selLoop_length_le (w lim : String) (cols : List String) (N : Nat)
    (hne : lim ≠ "") (hlim : parseLimitClause lim = .ok (Int.ofNat N)) (hN : 0 < N) :
    ∀ (rows acc res : List Row),
      selLoop w lim cols rows acc = .ok res → acc.length ≤ N → res.length ≤ N := by
  intro rows
  induction rows with
  | nil =>
    intro acc res h hle
    simp only [selLoop, Except.ok.injEq] at h
    subst h
    exact hle
  | cons r rest ih =>
    intro acc res h hle
    rw [selLoop] at h
    by_cases hpass : (w == "" || evaluateWhere r w) = true
    · rw [if_pos hpass] at h
      cases hpr : projectRow r cols with
      | error e => rw [hpr] at h; simp at h
      | ok pr =>
        by_cases hfull : N ≤ acc.length
        · have hb : (decide (0 < N) && decide (N ≤ acc.length)) = true := by
            simp [hN, hfull]
          simp only [hpr, limReached_eval lim acc N hne hlim, hb,
            Except.ok.injEq] at h
          subst h
          exact hle
        · have hb : (decide (0 < N) && decide (N ≤ acc.length)) = false := by
            simp [hfull]
          simp only [hpr, limReached_eval lim acc N hne hlim, hb] at h
          exact ih (acc ++ [pr]) res h (by simp; omega)
    · rw [if_neg hpass] at h
      exact ih acc res h hle

theorem joinInner_length_le (tn jtn lc rc w lim : String) (cols : List String)
    (mr : Row) (N : Nat)
    (hne : lim ≠ "") (hlim : parseLimitClause lim = .ok (Int.ofNat N)) (hN : 0 < N) :
    ∀ (jrows acc : List Row) (b : Bool) (res : List Row),
      joinInner tn jtn lc rc w lim cols mr jrows acc = .ok (b, res) →
      acc.length ≤ N → res.length ≤ N := by
  intro jrows
  induction jrows with
  | nil =>
    intro acc b res h hle
    simp only [joinInner, Except.ok.injEq, Prod.mk.injEq] at h
    rw [← h.2]
    exact hle
  | cons jr rest ih =>
    intro acc b res h hle
    rw [joinInner] at h
    by_cases hcond : (rowFind mr lc == rowFind jr rc) = true
    · rw [if_pos hcond] at h
      by_cases hpass : ((w == "")
          || evaluateWhere (mapsCopy (mapsCopy [] mr) jr) w) = true
      · rw [if_pos hpass] at h
        cases hpr : projectJoinRow (mapsCopy (mapsCopy [] mr) jr) mr jr tn jtn cols with
        | error e => rw [hpr] at h; simp at h
        | ok pr =>
          by_cases hfull : N ≤ acc.length
          · have hb : (decide (0 < N) && decide (N ≤ acc.length)) = true := by
              simp [hN, hfull]
            simp only [hpr, limReached_eval lim acc N hne hlim, hb,
              Except.ok.injEq, Prod.mk.injEq] at h
            rw [← h.2]
            exact hle
          · have hb : (decide (0 < N) && decide (N ≤ acc.length)) = false := by
              simp [hfull]
            simp only [hpr, limReached_eval lim acc N hne hlim, hb] at h
            exact ih (acc ++ [pr]) b res h (by simp; omega)
      · rw [if_neg hpass] at h
        exact ih acc b res h hle
    · rw [if_neg hcond] at h
      exact ih acc b res h hle

theorem joinOuter_length_le (tn jtn lc rc w lim : String) (cols : List String)
    (jrows : List Row) (N : Nat)
    (hne : lim ≠ "") (hlim : parseLimitClause lim = .ok (Int.ofNat N)) (hN : 0 < N) :
    ∀ (mrows acc res : List Row),
      joinOuter tn jtn lc rc w lim cols jrows mrows acc = .ok res →
      acc.length ≤ N → res.length ≤ N := by
  intro mrows
  induction mrows with
  | nil =>
    intro acc res h hle
    simp only [joinOuter, Except.ok.injEq] at h
    subst h
    exact hle
  | cons mr rest ih =>
    intro acc res h hle
    rw [joinOuter] at h
    cases hin : joinInner tn jtn lc rc w lim cols mr jrows acc with
    | error e => rw [hin] at h; simp at h
    | ok pr =>
      obtain ⟨b, acc2⟩ := pr
      rw [hin] at h
      have hacc2 : acc2.length ≤ N :=
        joinInner_length_le tn jtn lc rc w lim cols mr N hne hlim hN
          jrows acc b acc2 hin hle
      cases b with
      | true =>
        simp only [Except.ok.injEq] at h
        rw [← h]
        exact hacc2
      | false => exact ih acc2 res h hacc2

theorem accumulateRows_length_le (db : Database) (tn : String) (t : Table)
    (cols : List String) (w j lim : String) (res : List Row) (N : Nat)
    (hne : lim ≠ "") (hlim : parseLimitClause lim = .ok (Int.ofNat N)) (hN : 0 < N)
    (h : accumulateRows db tn t cols w j lim = .ok res) : res.length ≤ N := by
  rw [accumulateRows] at h
  by_cases hj : j = ""
  · rw [if_pos hj] at h
    exact selLoop_length_le w lim cols N hne hlim hN t.rows [] res h (by simp)
  · rw [if_neg hj] at h
    cases hp : parseJoinClause j with
    | error e => rw [hp] at h; simp at h
    | ok pr =>
      obtain ⟨jtn, cond⟩ := pr
      rw [hp] at h
      simp only [] at h
      cases hjt : dbFind db jtn with
      | none => rw [hjt] at h; simp at h
      | some jt =>
        rw [hjt] at h
        cases hc : parseJoinCondition cond with
        | error e => rw [hc] at h; simp at h
        | ok pr2 =>
          obtain ⟨lc, rc⟩ := pr2
          rw [hc] at h
          exact joinOuter_length_le tn jtn lc rc w lim cols jt.rows N hne hlim hN
            t.rows [] res h (by simp)

/-! ## Toolbox: sort length -/

theorem insertSorted_length (less : Row → Row → Bool) (x : Row) :
    ∀ l : List Row, (insertSorted less x l).length = l.length + 1 := by
  intro l
  induction l with
  | nil => rfl
  | cons y ys ih =>
    rw [insertSorted]
    split
    · simp [ih]
    · simp

theorem sortRows_length (rows : List Row) (col : Column) (dir : String) :
    (sortRows rows col dir).length = rows.length := by
  rw [sortRows]
  induction rows with
  | nil => rfl
  | cons r rest ih =>
    rw [List.foldr_cons, insertSorted_length, ih, List.length_cons]

theorem GetColumn_ok_exists (t : Table) (c : String) (col : Column)
    (h : GetColumn t c = .ok col) : columnExists t c = true := by
  rw [GetColumn] at h
  cases hf : t.columns.find? (fun col => col.name = c) with
  | none => rw [hf] at h; simp at h
  | some col0 =>
    have hp := List.find?_some hf
    have hmem := List.mem_of_find?_eq_some hf
    rw [columnExists, List.any_eq_true]
    exact ⟨col0, hmem, hp⟩

/-! ## Claim C4 -/

/-- C4: (1) a SELECT without JOIN carrying both `LIMIT n` (n > 0) and
`ORDER BY c` returns the first n rows (in insertion order) that pass
the WHERE filter, projected, and only THEN sorted by `c` — truncation
happens before ordering; (2) in all cases (join included) a SELECT
whose limit clause parses to n > 0 returns at most n rows. -/
theorem Select_limit_truncates_before_order :
    (∀ (db : Database) (tn : String) (cols : List String) (w ob lim c dir : String)
       (col : Column) (N : Nat) (prs : List Row) (t : Table),
      dbFind db tn = some t →
      lim ≠ "" → parseLimitClause lim = .ok (Int.ofNat N) → 0 < N →
      projectAll cols (t.rows.filter (fun r => w == "" || evaluateWhere r w))
        = .ok prs →
      prs.take N ≠ [] →
      parseOrderByClause ob = .ok (c, dir) →
      GetColumn t c = .ok col →
      Database.Select db tn cols w "" ob lim
        = .ok (sortRows (prs.take N) col dir)) ∧
    (∀ (db : Database) (tn : String) (cols : List String) (w j ob lim : String)
       (rs : List Row) (N : Nat),
      lim ≠ "" → parseLimitClause lim = .ok (Int.ofNat N) → 0 < N →
      Database.Select db tn cols w j ob lim = .ok rs → rs.length ≤ N) := by
  constructor
  · intro db tn cols w ob lim c dir col N prs t htbl hne hlim hN hproj hneres hob hcol
    have hsel : selLoop w lim cols t.rows [] = .ok (prs.take N) := by
      have := selLoop_limit_take w lim cols N hne hlim hN t.rows [] prs hproj
        (by simp)
      simpa using this
    have hacc : accumulateRows db tn t cols w "" lim = .ok (prs.take N) := by
      rw [accumulateRows, if_pos rfl]
      exact hsel
    have hobne : ob ≠ "" := by
      intro h
      rw [h, show parseOrderByClause ""
        = .error "empty order by clause" from rfl] at hob
      cases hob
    have hexists := GetColumn_ok_exists t c col hcol
    simp only [Database.Select, htbl, hacc]
    rw [if_neg (fun h0 : (prs.take N).length = 0 =>
      hneres (List.length_eq_zero.mp h0))]
    rw [if_pos hobne]
    simp only [hob, hexists, Bool.not_true, Bool.false_eq_true, if_false, hcol]
  · intro db tn cols w j ob lim rs N hne hlim hN hsel
    rw [Database.Select] at hsel
    cases htbl : dbFind db tn with
    | none =>
      simp only [htbl] at hsel
      exact Except.noConfusion hsel
    | some t =>
      simp only [htbl] at hsel
      cases hacc : accumulateRows db tn t cols w j lim with
      | error e =>
        simp only [hacc] at hsel
        exact Except.noConfusion hsel
      | ok results =>
        simp only [hacc] at hsel
        have hlen := accumulateRows_length_le db tn t cols w j lim results N
          hne hlim hN hacc
        by_cases h0 : results.length = 0
        · rw [if_pos h0] at hsel
          exact Except.noConfusion hsel
        · rw [if_neg h0] at hsel
          by_cases hobne : ob ≠ ""
          · rw [if_pos hobne] at hsel
            cases hpo : parseOrderByClause ob with
            | error e =>
              simp only [hpo] at hsel
              exact Except.noConfusion hsel
            | ok pr =>
              obtain ⟨oc, dir⟩ := pr
              simp only [hpo] at hsel
              cases hex : columnExists t oc with
              | false =>
                simp only [hex, Bool.not_false, if_true] at hsel
                exact Except.noConfusion hsel
              | true =>
                simp only [hex, Bool.not_true, Bool.false_eq_true, if_false]
                  at hsel
                cases hgc : GetColumn t oc with
                | error e =>
                  simp only [hgc] at hsel
                  exact Except.noConfusion hsel
                | ok col =>
                  simp only [hgc, Except.ok.injEq] at hsel
                  rw [← hsel, sortRows_length]
                  exact hlen
          · rw [if_neg hobne] at hsel
            simp only [Except.ok.injEq] at hsel
            rw [← hsel]
            exact hlen

/-- Witness for C4 at `SELECT * FROM users ORDER BY a LIMIT 1` over
the two-row table. -/
theorem Select_limit_truncates_before_order_witness :
    Database.Select exDbTwo "users" ["*"] "" "" "a" "1"
      = .ok (sortRows ([[("a", Value.VInt 1)], [("a", Value.VInt 2)]].take 1)
          (Column.mk "a" "INT" [] "" "") "ASC") ∧
    (Database.Select exDbTwo "users" ["*"] "" "" "a" "1"
        = .ok [[("a", Value.VInt 1)]] →
      ([[("a", Value.VInt 1)]] : List Row).length ≤ 1) := by
  constructor
  · exact Select_limit_truncates_before_order.1 exDbTwo "users" ["*"] "" "a" "1"
      "a" "ASC" (Column.mk "a" "INT" [] "" "") 1
      [[("a", Value.VInt 1)], [("a", Value.VInt 2)]] exTableTwo
      (by decide) (by decide) (by decide) (by decide) (by decide) (by decide)
      (by decide) (by decide)
  · intro h
    exact Select_limit_truncates_before_order.2 exDbTwo "users" ["*"] "" "" "a"
      "1" [[("a", Value.VInt 1)]] 1 (by decide) (by decide) (by decide) h

/-! ## Toolbox: the possible error messages of the accumulation phase -/

theorem ne_nrf_of_len (e : String) (h : e.length ≠ 16) : e ≠ "no results found" :=
  fun he => h (by rw [he]; decide)

theorem colNotFound_len (c : String) :
    (toString "column " ++ toString c ++ toString " not found" : String).length
      = c.length + 17 := by
  have h1 : ∀ a b : String, (a ++ b).length = a.length + b.length :=
    fun a b => String.length_append a b
  rw [h1, h1]
  have h2 : (toString "column " : String).length = 7 := by decide
  have h3 : (toString " not found" : String).length = 10 := by decide
  have h4 : (toString c : String) = c := rfl
  rw [h2, h3, h4]
  omega

theorem colNotFound_ne_nrf (c : String) :
    (toString "column " ++ toString c ++ toString " not found" : String)
      ≠ "no results found" := by
  apply ne_nrf_of_len
  rw [colNotFound_len]
  omega

theorem parseLimitClause_error (lim e : String)
    (h : parseLimitClause lim = .error e) :
    e = "invalid limit clause: invalid syntax" := by
  rw [parseLimitClause] at h
  split at h
  · cases h
  · split at h
    · cases h
    · exact (Except.error.inj h).symm

theorem limReached_error (lim : String) (acc : List Row) (e : String)
    (h : limReached lim acc = .error e) :
    e = "invalid limit clause: invalid syntax" := by
  rw [limReached] at h
  split at h
  · cases h
  · cases hp : parseLimitClause lim with
    | error e2 =>
      rw [hp] at h
      have he : e2 = e := Except.error.inj h
      exact he ▸ parseLimitClause_error lim e2 hp
    | ok n => rw [hp] at h; cases h

theorem projStep_error (r : Row) (acc : Row) (col : String) (e : String)
    (h : projStep r acc col = .error e) :
    ∃ c : String, e = (toString "column " ++ toString c ++ toString " not found") := by
  rw [projStep] at h
  split at h
  · cases h
  · split at h
    · cases h
    · exact ⟨trimStr col, (Except.error.inj h).symm⟩

theorem projJoinStep_error (combined mainRow joinRow : Row) (tn jtn : String)
    (acc : Row) (col : String) (e : String)
    (h : projJoinStep combined mainRow joinRow tn jtn acc col = .error e) :
    ∃ c : String, e = (toString "column " ++ toString c ++ toString " not found") := by
  rw [projJoinStep] at h
  split at h
  · cases h
  · split at h
    · cases h
    · split at h
      · split at h
        · split at h
          · cases h
          · exact ⟨trimStr col, (Except.error.inj h).symm⟩
        · split at h
          · split at h
            · cases h
            · exact ⟨trimStr col, (Except.error.inj h).symm⟩
          · exact ⟨trimStr col, (Except.error.inj h).symm⟩
      · exact ⟨trimStr col, (Except.error.inj h).symm⟩

theorem foldlM_step_error {α : Type}
    (f : Row → α → Except String Row)
    (hstep : ∀ acc p e, f acc p = .error e →
      ∃ c : String, e = (toString "column " ++ toString c ++ toString " not found")) :
    ∀ (ps : List α) (acc : Row) (e : String),
      List.foldlM f acc ps = .error e →
      ∃ c : String, e = (toString "column " ++ toString c ++ toString " not found") := by
  intro ps
  induction ps with
  | nil =>
    intro acc e h
    simp only [List.foldlM_nil, pure, Except.pure] at h
    exact Except.noConfusion h
  | cons p rest ih =>
    intro acc e h
    rw [foldlM_except_cons] at h
    cases hs : f acc p with
    | error e2 =>
      rw [hs] at h
      have he : e2 = e := Except.error.inj h
      exact he ▸ hstep acc p e2 hs
    | ok acc2 =>
      rw [hs] at h
      exact ih acc2 e h

theorem projectRow_error (r : Row) (cols : List String) (e : String)
    (h : projectRow r cols = .error e) :
    ∃ c : String, e = (toString "column " ++ toString c ++ toString " not found") :=
  foldlM_step_error (projStep r) (projStep_error r) cols [] e h

theorem projectJoinRow_error (combined mainRow joinRow : Row) (tn jtn : String)
    (cols : List String) (e : String)
    (h : projectJoinRow combined mainRow joinRow tn jtn cols = .error e) :
    ∃ c : String, e = (toString "column " ++ toString c ++ toString " not found") :=
  foldlM_step_error (projJoinStep combined mainRow joinRow tn jtn)
    (projJoinStep_error combined mainRow joinRow tn jtn) cols [] e h

theorem selLoop_error (w lim : String) (cols : List String) :
    ∀ (rows acc : List Row) (e : String),
      selLoop w lim cols rows acc = .error e →
      (∃ c : String, e = (toString "column " ++ toString c ++ toString " not found")) ∨
      e = "invalid limit clause: invalid syntax" := by
  intro rows
  induction rows with
  | nil => intro acc e h; cases h
  | cons r rest ih =>
    intro acc e h
    rw [selLoop] at h
    split at h
    · cases hpr : projectRow r cols with
      | error e2 =>
        rw [hpr] at h
        have he : e2 = e := Except.error.inj h
        exact he ▸ Or.inl (projectRow_error r cols e2 hpr)
      | ok pr =>
        simp only [hpr] at h
        cases hlr : limReached lim acc with
        | error e2 =>
          rw [hlr] at h
          have he : e2 = e := Except.error.inj h
          exact he ▸ Or.inr (limReached_error lim acc e2 hlr)
        | ok b =>
          simp only [hlr] at h
          cases b with
          | true => cases h
          | false => exact ih (acc ++ [pr]) e h
    · exact ih acc e h

theorem joinInner_error (tn jtn lc rc w lim : String) (cols : List String)
    (mr : Row) :
    ∀ (jrows acc : List Row) (e : String),
      joinInner tn jtn lc rc w lim cols mr jrows acc = .error e →
      (∃ c : String, e = (toString "column " ++ toString c ++ toString " not found")) ∨
      e = "invalid limit clause: invalid syntax" := by
  intro jrows
  induction jrows with
  | nil => intro acc e h; cases h
  | cons jr rest ih =>
    intro acc e h
    rw [joinInner] at h
    split at h
    · cases hw : w == "" || evaluateWhere (mapsCopy (mapsCopy [] mr) jr) w with
      | false =>
        simp only [hw] at h
        rw [if_neg (by decide : ¬ (false = true))] at h
        exact ih acc e h
      | true =>
        simp only [hw] at h
        simp only [if_true] at h
        cases hpr : projectJoinRow (mapsCopy (mapsCopy [] mr) jr) mr jr tn jtn cols with
        | error e2 =>
          rw [hpr] at h
          have he : e2 = e := Except.error.inj h
          exact he ▸ Or.inl (projectJoinRow_error _ mr jr tn jtn cols e2 hpr)
        | ok pr =>
          simp only [hpr] at h
          cases hlr : limReached lim acc with
          | error e2 =>
            rw [hlr] at h
            have he : e2 = e := Except.error.inj h
            exact he ▸ Or.inr (limReached_error lim acc e2 hlr)
          | ok b =>
            simp only [hlr] at h
            cases b with
            | true => cases h
            | false => exact ih (acc ++ [pr]) e h
    · exact ih acc e h

theorem joinOuter_error (tn jtn lc rc w lim : String) (cols : List String)
    (jrows : List Row) :
    ∀ (mrows acc : List Row) (e : String),
      joinOuter tn jtn lc rc w lim cols jrows mrows acc = .error e →
      (∃ c : String, e = (toString "column " ++ toString c ++ toString " not found")) ∨
      e = "invalid limit clause: invalid syntax" := by
  intro mrows
  induction mrows with
  | nil => intro acc e h; cases h
  | cons mr rest ih =>
    intro acc e h
    rw [joinOuter] at h
    cases hin : joinInner tn jtn lc rc w lim cols mr jrows acc with
    | error e2 =>
      rw [hin] at h
      have he : e2 = e := Except.error.inj h
      exact he ▸ joinInner_error tn jtn lc rc w lim cols mr jrows acc e2 hin
    | ok pr =>
      obtain ⟨b, acc2⟩ := pr
      simp only [hin] at h
      cases b with
      | true => cases h
      | false => exact ih acc2 e h

theorem parseJoinClause_error (j e : String) (h : parseJoinClause j = .error e) :
    e = "invalid join syntax" ∨ e = "missing join table name" := by
  rw [parseJoinClause] at h
  split at h
  · exact Or.inl (Except.error.inj h).symm
  · rename_i l r heq
    have h2 : (if trimStr (trimPrefixStr (trimStr l) "JOIN") = ""
        then (Except.error "missing join table name" : Except String (String × String))
        else Except.ok (trimStr (trimPrefixStr (trimStr l) "JOIN"), trimStr r))
        = Except.error e := h
    split at h2
    · exact Or.inr (Except.error.inj h2).symm
    · cases h2

theorem parseJoinCondition_error (cond e : String)
    (h : parseJoinCondition cond = .error e) :
    e = "invalid join condition" ∨ e = "invalid left side of join condition" ∨
    e = "invalid right side of join condition" := by
  rw [parseJoinCondition] at h
  split at h
  · split at h
    · split at h
      · cases h
      · exact Or.inr (Or.inr (Except.error.inj h).symm)
    · exact Or.inr (Or.inl (Except.error.inj h).symm)
  · exact Or.inl (Except.error.inj h).symm

theorem parseOrderByClause_error (ob e : String)
    (h : parseOrderByClause ob = .error e) :
    e = "empty order by clause" ∨ e = "invalid order by clause" ∨
    e = "invalid order by direction" := by
  rw [parseOrderByClause] at h
  split at h
  · exact Or.inl (Except.error.inj h).symm
  · cases hf : fieldsOf (trimStr ob) with
    | nil =>
      rw [hf] at h
      exact Or.inr (Or.inl (Except.error.inj h).symm)
    | cons col rest =>
      simp only [hf] at h
      cases rest with
      | nil => exact Except.noConfusion h
      | cons d tail =>
        have h2 : (if (decide (toUpperStr d = "ASC") || decide (toUpperStr d = "DESC")) = true
            then Except.ok (col, toUpperStr d)
            else (Except.error "invalid order by direction" : Except String (String × String)))
            = Except.error e := h
        split at h2
        · cases h2
        · exact Or.inr (Or.inr (Except.error.inj h2).symm)

theorem GetColumn_error (t : Table) (c e : String) (h : GetColumn t c = .error e) :
    e = (toString "column " ++ toString c ++ toString " not found") := by
  rw [GetColumn] at h
  split at h
  · cases h
  · exact (Except.error.inj h).symm

theorem accumulateRows_error_ne_nrf (db : Database) (tn : String) (t : Table)
    (cols : List String) (w j lim : String) (e : String)
    (h : accumulateRows db tn t cols w j lim = .error e) :
    e ≠ "no results found" := by
  rw [accumulateRows] at h
  split at h
  · rcases selLoop_error w lim cols t.rows [] e h with ⟨c, rfl⟩ | rfl
    · exact colNotFound_ne_nrf c
    · decide
  · cases hp : parseJoinClause j with
    | error e2 =>
      rw [hp] at h
      have he := Except.error.inj h
      rw [← he]
      rcases parseJoinClause_error j e2 hp with rfl | rfl <;> decide
    | ok pr =>
      obtain ⟨jtn, cond⟩ := pr
      simp only [hp] at h
      cases hjt : dbFind db jtn with
      | none =>
        rw [hjt] at h
        have he := Except.error.inj h
        rw [← he]
        apply ne_nrf_of_len
        have h1 : ∀ a b : String, (a ++ b).length = a.length + b.length :=
          fun a b => String.length_append a b
        rw [h1, h1]
        have h2 : (toString "join table " : String).length = 11 := by decide
        have h3 : (toString " does not exist" : String).length = 15 := by decide
        rw [h2, h3]
        omega
      | some jt =>
        simp only [hjt] at h
        cases hc : parseJoinCondition cond with
        | error e2 =>
          rw [hc] at h
          have he := Except.error.inj h
          rw [← he]
          rcases parseJoinCondition_error cond e2 hc with rfl | rfl | rfl <;> decide
        | ok pr2 =>
          obtain ⟨lc, rc⟩ := pr2
          simp only [hc] at h
          rcases joinOuter_error tn jtn lc rc w lim cols jt.rows t.rows [] e h
            with ⟨c, rfl⟩ | rfl
          · exact colNotFound_ne_nrf c
          · decide

/-! ## Claim C7 -/

/-- C7 counterexample: one row IS accumulated, yet the statement
returns neither the JSON result nor `no results found` — the invalid
ORDER BY column produces its own error, so "otherwise the JSON result
is returned" is false as claimed. -/
theorem select_orderby_error_counterexample :
    accumulateRows exDbA "users" exTableA ["*"] "" "" ""
      = .ok [[("a", Value.VInt 1)]] ∧
    Database.Select exDbA "users" ["*"] "" "" "zzz" ""
      = .error "column zzz does not exist" ∧
    ("column zzz does not exist" : String) ≠ "no results found" := by
  refine ⟨by decide, by decide, by decide⟩

/-- C7 amended: on an existing table, the error `no results found` is
returned exactly when the accumulation loop runs to completion with
zero rows (no error of its own); and when rows are accumulated and no
ORDER BY clause is given, the result set is returned.  (Projection,
limit, join and ORDER BY failures return their own errors instead;
`Select` performs no catalog mutation by construction.) -/
theorem Select_no_results_semantics :
    (∀ (db : Database) (tn : String) (cols : List String) (w j ob lim : String)
       (t : Table), dbFind db tn = some t →
      (Database.Select db tn cols w j ob lim = .error "no results found"
        ↔ accumulateRows db tn t cols w j lim = .ok [])) ∧
    (∀ (db : Database) (tn : String) (cols : List String) (w j lim : String)
       (t : Table) (r : Row) (rs : List Row), dbFind db tn = some t →
      accumulateRows db tn t cols w j lim = .ok (r :: rs) →
      Database.Select db tn cols w j "" lim = .ok (r :: rs)) := by
  constructor
  · intro db tn cols w j ob lim t htbl
    constructor
    · intro h
      rw [Database.Select] at h
      simp only [htbl] at h
      cases hacc : accumulateRows db tn t cols w j lim with
      | error e =>
        simp only [hacc] at h
        exact absurd (Except.error.inj h)
          (accumulateRows_error_ne_nrf db tn t cols w j lim e hacc)
      | ok results =>
        simp only [hacc] at h
        by_cases h0 : results.length = 0
        · rw [List.length_eq_zero] at h0
          rw [h0]
        · rw [if_neg h0] at h
          exfalso
          by_cases hobne : ob ≠ ""
          · rw [if_pos hobne] at h
            cases hpo : parseOrderByClause ob with
            | error e =>
              simp only [hpo] at h
              rcases parseOrderByClause_error ob e hpo with rfl | rfl | rfl <;>
                exact absurd (Except.error.inj h) (by decide)
            | ok pr =>
              obtain ⟨oc, dir⟩ := pr
              simp only [hpo] at h
              cases hex : columnExists t oc with
              | false =>
                simp only [hex, Bool.not_false] at h
                simp only [if_true] at h
                have hne2 : (toString "column " ++ toString oc
                    ++ toString " does not exist" : String)
                    ≠ "no results found" := by
                  apply ne_nrf_of_len
                  have h1 : ∀ a b : String, (a ++ b).length = a.length + b.length :=
                    fun a b => String.length_append a b
                  rw [h1, h1]
                  have h2 : (toString "column " : String).length = 7 := by decide
                  have h3 : (toString " does not exist" : String).length = 15 := by
                    decide
                  rw [h2, h3]
                  omega
                exact absurd (Except.error.inj h) hne2
              | true =>
                simp only [hex, Bool.not_true] at h
                rw [if_neg (by decide : ¬ (false = true))] at h
                cases hgc : GetColumn t oc with
                | error e =>
                  rw [hgc] at h
                  have he := Except.error.inj h
                  rw [GetColumn_error t oc e hgc] at he
                  exact absurd he (colNotFound_ne_nrf oc)
                | ok col =>
                  simp only [hgc] at h
                  exact Except.noConfusion h
          · rw [if_neg hobne] at h
            exact Except.noConfusion h
    · intro hacc
      rw [Database.Select]
      simp only [htbl, hacc]
      rfl
  · intro db tn cols w j lim t r rs htbl hacc
    rw [Database.Select]
    simp only [htbl, hacc]
    rw [if_neg (by simp), if_neg (by simp)]

/-- Witness for C7's amended theorem at the one-row table: the iff at
an unsatisfiable predicate, and the plain result set without ORDER
BY. -/
theorem Select_no_results_semantics_witness :
    (Database.Select exDbA "users" ["*"] "a = 9" "" "" ""
        = .error "no results found"
      ↔ accumulateRows exDbA "users" exTableA ["*"] "a = 9" "" "" = .ok []) ∧
    Database.Select exDbA "users" ["*"] "" "" "" ""
      = .ok [[("a", Value.VInt 1)]] := by
  constructor
  · exact Select_no_results_semantics.1 exDbA "users" ["*"] "a = 9" "" "" ""
      exTableA (by decide)
  · exact Select_no_results_semantics.2 exDbA "users" ["*"] "" "" ""
      exTableA [("a", Value.VInt 1)] [] (by decide) (by decide)

end GoDB
